import Mathlib

/-!
# Verification of the quote-educator transducer

A shallow embedding of the Go program in `main.go` (package `main` of
`github.com/adiabatic/quote-educator`): a single-pass text transducer that
replaces straight quotation marks by curly ones while leaving code spans,
YAML front matter, HTML attribute values and `<code>` bodies untouched.

Modelling conventions:

* The `bytes.Reader` plus `bytes.Buffer` pair of the Go `state` struct is
  modelled by `St`: `rest` is the not-yet-read part of the decoded input,
  `off` the number of runes already consumed, `out` the output buffer and
  `depth` the `codeElementsEntered` counter.
* The Go code measures `currentOffset` and string lengths in bytes.  Every
  needle it peeks at or advances through (`"--"`, `"code"`, `"</code"`,
  `">"`, `"\n---\n"`, "backtick-backtick", "newline-3-backticks-newline")
  is pure ASCII, and `currentOffset() == 1` can only hold after reading a
  one-byte rune, so rune counts and byte counts agree at every comparison
  the program performs; we therefore count runes.
* `log.Fatalf` and panics terminate the Go process; they are modelled as
  the distinguished error values `Err.fatal` and `Err.panicked`.
* Loops are modelled with a `fuel` parameter; `Err.outOfFuel` is returned
  when it runs out.  All theorems either fix a generously sufficient fuel
  or take the needed amount as a hypothesis.
-/

set_option maxRecDepth 10000

namespace QuoteEducator

/-- Errors a parse routine can surface.  `eof` models `io.EOF`; `badRune`
models the `fmt.Errorf` "expected read rune to be ..." checks; `postcondition`
models the `fmt.Errorf` postcondition check of
`inSpanEndingWithSingleUnescapedRune`; `weirdAttributeValueRune` models the
`fmt.Errorf` default branch of `handleHTMLAttributes`; `fatal` models
`log.Fatalf`; `panicked` models a panic in a `must*` helper. -/
inductive Err where
  | eof
  | outOfFuel
  | badRune
  | postcondition
  | weirdAttributeValueRune
  | fatal
  | panicked
deriving Repr, DecidableEq

/-- The Go `state` struct: reader position, output buffer, and the
`codeElementsEntered` counter.  The dispatch map `whatDo` is a fixed table
(see `whatDoQ`), so it is not part of the state. -/
structure St where
  rest : List Char
  off : Nat
  out : List Char
  depth : Int
deriving Repr, DecidableEq

/-- `state.peekRune`: return the next rune without consuming (`none` = `io.EOF`). -/
def peekRune (s : St) : Option Char :=
  s.rest.head?

/-- `state.readRune`: consume and return the next rune (`none` = `io.EOF`). -/
def readRune (s : St) : Option (Char × St) :=
  match s.rest with
  | [] => none
  | c :: cs => some (c, { s with rest := cs, off := s.off + 1 })

/-- `state.writeRune` (the `bytes.Buffer` write never fails). -/
def writeRune (s : St) (c : Char) : St :=
  { s with out := s.out ++ [c] }

/-- `state.previousRune`: the most recently written rune (`none` = "BOF"). -/
def previousRune (s : St) : Option Char :=
  s.out.getLast?

/-- `state.previousRuneMatches`. -/
def previousRuneMatches (s : St) (f : Char → Bool) : Bool :=
  match previousRune s with
  | none => false
  | some r => f r

/-- `state.previousRuneMatchesAny`.  Faithful to the Go source, which reads

    if r, err := s.previousRune(); err != nil { if r == candidate { ... } }

so a candidate is compared (against the zero rune returned on error) only
when `previousRune` FAILS; for any non-NUL candidate the function is
constantly false. -/
def previousRuneMatchesAny (s : St) (candidates : List Char) : Bool :=
  candidates.any fun candidate =>
    match previousRune s with
    | none => Char.ofNat 0 == candidate
    | some _ => false

/-- `state.previousRunesMatchOne`: the last `candidate.length` runes of the
output equal `candidate`. -/
def previousRunesMatchOne (s : St) (candidate : List Char) : Bool :=
  candidate.isSuffixOf s.out

/-- `state.previousRunesMatchAny`: first candidate that matches, if any. -/
def previousRunesMatchAny (s : St) (candidates : List (List Char)) :
    Option (List Char) :=
  candidates.findSome? fun candidate =>
    if previousRunesMatchOne s candidate then some candidate else none

/-- `state.PeekEquals`: `needle` is just ahead of the current offset.  (All
needles in the program are ASCII, so byte-wise and rune-wise prefix tests
agree.) -/
def PeekEquals (s : St) (needle : List Char) : Bool :=
  needle.isPrefixOf s.rest

/-- `isASCIIWhitespace`. -/
def isASCIIWhitespace (r : Char) : Bool :=
  r == Char.ofNat 0x09 || r == Char.ofNat 0x0a || r == Char.ofNat 0x0c ||
    r == Char.ofNat 0x0d || r == Char.ofNat 0x20

/-- Go `unicode.IsControl`: true on the Latin-1 `pC` properties
(U+0000..U+001F and U+007F..U+009F), false above Latin-1. -/
def unicodeIsControl (r : Char) : Bool :=
  r.val ≤ 0x1f || (0x7f ≤ r.val && r.val ≤ 0x9f)

/-- The code-point ranges of Unicode general category L above the Latin-1
block: Go `unicode.IsLetter` falls back to a binary search of the
category-L range tables (`isExcludingLatin(Letter, r)`) for runes above
U+00FF.  Transcribed from the Unicode character database (general category
Lu, Ll, Lt, Lm, Lo, Unicode 14.0; the one table range straddling the
Latin-1 boundary, U+00F8..U+02C1, is clipped to start at U+0100 because
Latin-1 runes never reach this table). -/
def letterRangesAboveLatin1 : List (Nat × Nat) :=
  [(0x100, 0x2C1), (0x2C6, 0x2D1), (0x2E0, 0x2E4), (0x2EC, 0x2EC), (0x2EE, 0x2EE),
  (0x370, 0x374), (0x376, 0x377), (0x37A, 0x37D), (0x37F, 0x37F), (0x386, 0x386),
  (0x388, 0x38A), (0x38C, 0x38C), (0x38E, 0x3A1), (0x3A3, 0x3F5), (0x3F7, 0x481),
  (0x48A, 0x52F), (0x531, 0x556), (0x559, 0x559), (0x560, 0x588), (0x5D0, 0x5EA),
  (0x5EF, 0x5F2), (0x620, 0x64A), (0x66E, 0x66F), (0x671, 0x6D3), (0x6D5, 0x6D5),
  (0x6E5, 0x6E6), (0x6EE, 0x6EF), (0x6FA, 0x6FC), (0x6FF, 0x6FF), (0x710, 0x710),
  (0x712, 0x72F), (0x74D, 0x7A5), (0x7B1, 0x7B1), (0x7CA, 0x7EA), (0x7F4, 0x7F5),
  (0x7FA, 0x7FA), (0x800, 0x815), (0x81A, 0x81A), (0x824, 0x824), (0x828, 0x828),
  (0x840, 0x858), (0x860, 0x86A), (0x870, 0x887), (0x889, 0x88E), (0x8A0, 0x8C9),
  (0x904, 0x939), (0x93D, 0x93D), (0x950, 0x950), (0x958, 0x961), (0x971, 0x980),
  (0x985, 0x98C), (0x98F, 0x990), (0x993, 0x9A8), (0x9AA, 0x9B0), (0x9B2, 0x9B2),
  (0x9B6, 0x9B9), (0x9BD, 0x9BD), (0x9CE, 0x9CE), (0x9DC, 0x9DD), (0x9DF, 0x9E1),
  (0x9F0, 0x9F1), (0x9FC, 0x9FC), (0xA05, 0xA0A), (0xA0F, 0xA10), (0xA13, 0xA28),
  (0xA2A, 0xA30), (0xA32, 0xA33), (0xA35, 0xA36), (0xA38, 0xA39), (0xA59, 0xA5C),
  (0xA5E, 0xA5E), (0xA72, 0xA74), (0xA85, 0xA8D), (0xA8F, 0xA91), (0xA93, 0xAA8),
  (0xAAA, 0xAB0), (0xAB2, 0xAB3), (0xAB5, 0xAB9), (0xABD, 0xABD), (0xAD0, 0xAD0),
  (0xAE0, 0xAE1), (0xAF9, 0xAF9), (0xB05, 0xB0C), (0xB0F, 0xB10), (0xB13, 0xB28),
  (0xB2A, 0xB30), (0xB32, 0xB33), (0xB35, 0xB39), (0xB3D, 0xB3D), (0xB5C, 0xB5D),
  (0xB5F, 0xB61), (0xB71, 0xB71), (0xB83, 0xB83), (0xB85, 0xB8A), (0xB8E, 0xB90),
  (0xB92, 0xB95), (0xB99, 0xB9A), (0xB9C, 0xB9C), (0xB9E, 0xB9F), (0xBA3, 0xBA4),
  (0xBA8, 0xBAA), (0xBAE, 0xBB9), (0xBD0, 0xBD0), (0xC05, 0xC0C), (0xC0E, 0xC10),
  (0xC12, 0xC28), (0xC2A, 0xC39), (0xC3D, 0xC3D), (0xC58, 0xC5A), (0xC5D, 0xC5D),
  (0xC60, 0xC61), (0xC80, 0xC80), (0xC85, 0xC8C), (0xC8E, 0xC90), (0xC92, 0xCA8),
  (0xCAA, 0xCB3), (0xCB5, 0xCB9), (0xCBD, 0xCBD), (0xCDD, 0xCDE), (0xCE0, 0xCE1),
  (0xCF1, 0xCF2), (0xD04, 0xD0C), (0xD0E, 0xD10), (0xD12, 0xD3A), (0xD3D, 0xD3D),
  (0xD4E, 0xD4E), (0xD54, 0xD56), (0xD5F, 0xD61), (0xD7A, 0xD7F), (0xD85, 0xD96),
  (0xD9A, 0xDB1), (0xDB3, 0xDBB), (0xDBD, 0xDBD), (0xDC0, 0xDC6), (0xE01, 0xE30),
  (0xE32, 0xE33), (0xE40, 0xE46), (0xE81, 0xE82), (0xE84, 0xE84), (0xE86, 0xE8A),
  (0xE8C, 0xEA3), (0xEA5, 0xEA5), (0xEA7, 0xEB0), (0xEB2, 0xEB3), (0xEBD, 0xEBD),
  (0xEC0, 0xEC4), (0xEC6, 0xEC6), (0xEDC, 0xEDF), (0xF00, 0xF00), (0xF40, 0xF47),
  (0xF49, 0xF6C), (0xF88, 0xF8C), (0x1000, 0x102A), (0x103F, 0x103F), (0x1050, 0x1055),
  (0x105A, 0x105D), (0x1061, 0x1061), (0x1065, 0x1066), (0x106E, 0x1070), (0x1075, 0x1081),
  (0x108E, 0x108E), (0x10A0, 0x10C5), (0x10C7, 0x10C7), (0x10CD, 0x10CD), (0x10D0, 0x10FA),
  (0x10FC, 0x1248), (0x124A, 0x124D), (0x1250, 0x1256), (0x1258, 0x1258), (0x125A, 0x125D),
  (0x1260, 0x1288), (0x128A, 0x128D), (0x1290, 0x12B0), (0x12B2, 0x12B5), (0x12B8, 0x12BE),
  (0x12C0, 0x12C0), (0x12C2, 0x12C5), (0x12C8, 0x12D6), (0x12D8, 0x1310), (0x1312, 0x1315),
  (0x1318, 0x135A), (0x1380, 0x138F), (0x13A0, 0x13F5), (0x13F8, 0x13FD), (0x1401, 0x166C),
  (0x166F, 0x167F), (0x1681, 0x169A), (0x16A0, 0x16EA), (0x16F1, 0x16F8), (0x1700, 0x1711),
  (0x171F, 0x1731), (0x1740, 0x1751), (0x1760, 0x176C), (0x176E, 0x1770), (0x1780, 0x17B3),
  (0x17D7, 0x17D7), (0x17DC, 0x17DC), (0x1820, 0x1878), (0x1880, 0x1884), (0x1887, 0x18A8),
  (0x18AA, 0x18AA), (0x18B0, 0x18F5), (0x1900, 0x191E), (0x1950, 0x196D), (0x1970, 0x1974),
  (0x1980, 0x19AB), (0x19B0, 0x19C9), (0x1A00, 0x1A16), (0x1A20, 0x1A54), (0x1AA7, 0x1AA7),
  (0x1B05, 0x1B33), (0x1B45, 0x1B4C), (0x1B83, 0x1BA0), (0x1BAE, 0x1BAF), (0x1BBA, 0x1BE5),
  (0x1C00, 0x1C23), (0x1C4D, 0x1C4F), (0x1C5A, 0x1C7D), (0x1C80, 0x1C88), (0x1C90, 0x1CBA),
  (0x1CBD, 0x1CBF), (0x1CE9, 0x1CEC), (0x1CEE, 0x1CF3), (0x1CF5, 0x1CF6), (0x1CFA, 0x1CFA),
  (0x1D00, 0x1DBF), (0x1E00, 0x1F15), (0x1F18, 0x1F1D), (0x1F20, 0x1F45), (0x1F48, 0x1F4D),
  (0x1F50, 0x1F57), (0x1F59, 0x1F59), (0x1F5B, 0x1F5B), (0x1F5D, 0x1F5D), (0x1F5F, 0x1F7D),
  (0x1F80, 0x1FB4), (0x1FB6, 0x1FBC), (0x1FBE, 0x1FBE), (0x1FC2, 0x1FC4), (0x1FC6, 0x1FCC),
  (0x1FD0, 0x1FD3), (0x1FD6, 0x1FDB), (0x1FE0, 0x1FEC), (0x1FF2, 0x1FF4), (0x1FF6, 0x1FFC),
  (0x2071, 0x2071), (0x207F, 0x207F), (0x2090, 0x209C), (0x2102, 0x2102), (0x2107, 0x2107),
  (0x210A, 0x2113), (0x2115, 0x2115), (0x2119, 0x211D), (0x2124, 0x2124), (0x2126, 0x2126),
  (0x2128, 0x2128), (0x212A, 0x212D), (0x212F, 0x2139), (0x213C, 0x213F), (0x2145, 0x2149),
  (0x214E, 0x214E), (0x2183, 0x2184), (0x2C00, 0x2CE4), (0x2CEB, 0x2CEE), (0x2CF2, 0x2CF3),
  (0x2D00, 0x2D25), (0x2D27, 0x2D27), (0x2D2D, 0x2D2D), (0x2D30, 0x2D67), (0x2D6F, 0x2D6F),
  (0x2D80, 0x2D96), (0x2DA0, 0x2DA6), (0x2DA8, 0x2DAE), (0x2DB0, 0x2DB6), (0x2DB8, 0x2DBE),
  (0x2DC0, 0x2DC6), (0x2DC8, 0x2DCE), (0x2DD0, 0x2DD6), (0x2DD8, 0x2DDE), (0x2E2F, 0x2E2F),
  (0x3005, 0x3006), (0x3031, 0x3035), (0x303B, 0x303C), (0x3041, 0x3096), (0x309D, 0x309F),
  (0x30A1, 0x30FA), (0x30FC, 0x30FF), (0x3105, 0x312F), (0x3131, 0x318E), (0x31A0, 0x31BF),
  (0x31F0, 0x31FF), (0x3400, 0x4DBF), (0x4E00, 0xA48C), (0xA4D0, 0xA4FD), (0xA500, 0xA60C),
  (0xA610, 0xA61F), (0xA62A, 0xA62B), (0xA640, 0xA66E), (0xA67F, 0xA69D), (0xA6A0, 0xA6E5),
  (0xA717, 0xA71F), (0xA722, 0xA788), (0xA78B, 0xA7CA), (0xA7D0, 0xA7D1), (0xA7D3, 0xA7D3),
  (0xA7D5, 0xA7D9), (0xA7F2, 0xA801), (0xA803, 0xA805), (0xA807, 0xA80A), (0xA80C, 0xA822),
  (0xA840, 0xA873), (0xA882, 0xA8B3), (0xA8F2, 0xA8F7), (0xA8FB, 0xA8FB), (0xA8FD, 0xA8FE),
  (0xA90A, 0xA925), (0xA930, 0xA946), (0xA960, 0xA97C), (0xA984, 0xA9B2), (0xA9CF, 0xA9CF),
  (0xA9E0, 0xA9E4), (0xA9E6, 0xA9EF), (0xA9FA, 0xA9FE), (0xAA00, 0xAA28), (0xAA40, 0xAA42),
  (0xAA44, 0xAA4B), (0xAA60, 0xAA76), (0xAA7A, 0xAA7A), (0xAA7E, 0xAAAF), (0xAAB1, 0xAAB1),
  (0xAAB5, 0xAAB6), (0xAAB9, 0xAABD), (0xAAC0, 0xAAC0), (0xAAC2, 0xAAC2), (0xAADB, 0xAADD),
  (0xAAE0, 0xAAEA), (0xAAF2, 0xAAF4), (0xAB01, 0xAB06), (0xAB09, 0xAB0E), (0xAB11, 0xAB16),
  (0xAB20, 0xAB26), (0xAB28, 0xAB2E), (0xAB30, 0xAB5A), (0xAB5C, 0xAB69), (0xAB70, 0xABE2),
  (0xAC00, 0xD7A3), (0xD7B0, 0xD7C6), (0xD7CB, 0xD7FB), (0xF900, 0xFA6D), (0xFA70, 0xFAD9),
  (0xFB00, 0xFB06), (0xFB13, 0xFB17), (0xFB1D, 0xFB1D), (0xFB1F, 0xFB28), (0xFB2A, 0xFB36),
  (0xFB38, 0xFB3C), (0xFB3E, 0xFB3E), (0xFB40, 0xFB41), (0xFB43, 0xFB44), (0xFB46, 0xFBB1),
  (0xFBD3, 0xFD3D), (0xFD50, 0xFD8F), (0xFD92, 0xFDC7), (0xFDF0, 0xFDFB), (0xFE70, 0xFE74),
  (0xFE76, 0xFEFC), (0xFF21, 0xFF3A), (0xFF41, 0xFF5A), (0xFF66, 0xFFBE), (0xFFC2, 0xFFC7),
  (0xFFCA, 0xFFCF), (0xFFD2, 0xFFD7), (0xFFDA, 0xFFDC), (0x10000, 0x1000B), (0x1000D, 0x10026),
  (0x10028, 0x1003A), (0x1003C, 0x1003D), (0x1003F, 0x1004D), (0x10050, 0x1005D), (0x10080, 0x100FA),
  (0x10280, 0x1029C), (0x102A0, 0x102D0), (0x10300, 0x1031F), (0x1032D, 0x10340), (0x10342, 0x10349),
  (0x10350, 0x10375), (0x10380, 0x1039D), (0x103A0, 0x103C3), (0x103C8, 0x103CF), (0x10400, 0x1049D),
  (0x104B0, 0x104D3), (0x104D8, 0x104FB), (0x10500, 0x10527), (0x10530, 0x10563), (0x10570, 0x1057A),
  (0x1057C, 0x1058A), (0x1058C, 0x10592), (0x10594, 0x10595), (0x10597, 0x105A1), (0x105A3, 0x105B1),
  (0x105B3, 0x105B9), (0x105BB, 0x105BC), (0x10600, 0x10736), (0x10740, 0x10755), (0x10760, 0x10767),
  (0x10780, 0x10785), (0x10787, 0x107B0), (0x107B2, 0x107BA), (0x10800, 0x10805), (0x10808, 0x10808),
  (0x1080A, 0x10835), (0x10837, 0x10838), (0x1083C, 0x1083C), (0x1083F, 0x10855), (0x10860, 0x10876),
  (0x10880, 0x1089E), (0x108E0, 0x108F2), (0x108F4, 0x108F5), (0x10900, 0x10915), (0x10920, 0x10939),
  (0x10980, 0x109B7), (0x109BE, 0x109BF), (0x10A00, 0x10A00), (0x10A10, 0x10A13), (0x10A15, 0x10A17),
  (0x10A19, 0x10A35), (0x10A60, 0x10A7C), (0x10A80, 0x10A9C), (0x10AC0, 0x10AC7), (0x10AC9, 0x10AE4),
  (0x10B00, 0x10B35), (0x10B40, 0x10B55), (0x10B60, 0x10B72), (0x10B80, 0x10B91), (0x10C00, 0x10C48),
  (0x10C80, 0x10CB2), (0x10CC0, 0x10CF2), (0x10D00, 0x10D23), (0x10E80, 0x10EA9), (0x10EB0, 0x10EB1),
  (0x10F00, 0x10F1C), (0x10F27, 0x10F27), (0x10F30, 0x10F45), (0x10F70, 0x10F81), (0x10FB0, 0x10FC4),
  (0x10FE0, 0x10FF6), (0x11003, 0x11037), (0x11071, 0x11072), (0x11075, 0x11075), (0x11083, 0x110AF),
  (0x110D0, 0x110E8), (0x11103, 0x11126), (0x11144, 0x11144), (0x11147, 0x11147), (0x11150, 0x11172),
  (0x11176, 0x11176), (0x11183, 0x111B2), (0x111C1, 0x111C4), (0x111DA, 0x111DA), (0x111DC, 0x111DC),
  (0x11200, 0x11211), (0x11213, 0x1122B), (0x11280, 0x11286), (0x11288, 0x11288), (0x1128A, 0x1128D),
  (0x1128F, 0x1129D), (0x1129F, 0x112A8), (0x112B0, 0x112DE), (0x11305, 0x1130C), (0x1130F, 0x11310),
  (0x11313, 0x11328), (0x1132A, 0x11330), (0x11332, 0x11333), (0x11335, 0x11339), (0x1133D, 0x1133D),
  (0x11350, 0x11350), (0x1135D, 0x11361), (0x11400, 0x11434), (0x11447, 0x1144A), (0x1145F, 0x11461),
  (0x11480, 0x114AF), (0x114C4, 0x114C5), (0x114C7, 0x114C7), (0x11580, 0x115AE), (0x115D8, 0x115DB),
  (0x11600, 0x1162F), (0x11644, 0x11644), (0x11680, 0x116AA), (0x116B8, 0x116B8), (0x11700, 0x1171A),
  (0x11740, 0x11746), (0x11800, 0x1182B), (0x118A0, 0x118DF), (0x118FF, 0x11906), (0x11909, 0x11909),
  (0x1190C, 0x11913), (0x11915, 0x11916), (0x11918, 0x1192F), (0x1193F, 0x1193F), (0x11941, 0x11941),
  (0x119A0, 0x119A7), (0x119AA, 0x119D0), (0x119E1, 0x119E1), (0x119E3, 0x119E3), (0x11A00, 0x11A00),
  (0x11A0B, 0x11A32), (0x11A3A, 0x11A3A), (0x11A50, 0x11A50), (0x11A5C, 0x11A89), (0x11A9D, 0x11A9D),
  (0x11AB0, 0x11AF8), (0x11C00, 0x11C08), (0x11C0A, 0x11C2E), (0x11C40, 0x11C40), (0x11C72, 0x11C8F),
  (0x11D00, 0x11D06), (0x11D08, 0x11D09), (0x11D0B, 0x11D30), (0x11D46, 0x11D46), (0x11D60, 0x11D65),
  (0x11D67, 0x11D68), (0x11D6A, 0x11D89), (0x11D98, 0x11D98), (0x11EE0, 0x11EF2), (0x11FB0, 0x11FB0),
  (0x12000, 0x12399), (0x12480, 0x12543), (0x12F90, 0x12FF0), (0x13000, 0x1342E), (0x14400, 0x14646),
  (0x16800, 0x16A38), (0x16A40, 0x16A5E), (0x16A70, 0x16ABE), (0x16AD0, 0x16AED), (0x16B00, 0x16B2F),
  (0x16B40, 0x16B43), (0x16B63, 0x16B77), (0x16B7D, 0x16B8F), (0x16E40, 0x16E7F), (0x16F00, 0x16F4A),
  (0x16F50, 0x16F50), (0x16F93, 0x16F9F), (0x16FE0, 0x16FE1), (0x16FE3, 0x16FE3), (0x17000, 0x187F7),
  (0x18800, 0x18CD5), (0x18D00, 0x18D08), (0x1AFF0, 0x1AFF3), (0x1AFF5, 0x1AFFB), (0x1AFFD, 0x1AFFE),
  (0x1B000, 0x1B122), (0x1B150, 0x1B152), (0x1B164, 0x1B167), (0x1B170, 0x1B2FB), (0x1BC00, 0x1BC6A),
  (0x1BC70, 0x1BC7C), (0x1BC80, 0x1BC88), (0x1BC90, 0x1BC99), (0x1D400, 0x1D454), (0x1D456, 0x1D49C),
  (0x1D49E, 0x1D49F), (0x1D4A2, 0x1D4A2), (0x1D4A5, 0x1D4A6), (0x1D4A9, 0x1D4AC), (0x1D4AE, 0x1D4B9),
  (0x1D4BB, 0x1D4BB), (0x1D4BD, 0x1D4C3), (0x1D4C5, 0x1D505), (0x1D507, 0x1D50A), (0x1D50D, 0x1D514),
  (0x1D516, 0x1D51C), (0x1D51E, 0x1D539), (0x1D53B, 0x1D53E), (0x1D540, 0x1D544), (0x1D546, 0x1D546),
  (0x1D54A, 0x1D550), (0x1D552, 0x1D6A5), (0x1D6A8, 0x1D6C0), (0x1D6C2, 0x1D6DA), (0x1D6DC, 0x1D6FA),
  (0x1D6FC, 0x1D714), (0x1D716, 0x1D734), (0x1D736, 0x1D74E), (0x1D750, 0x1D76E), (0x1D770, 0x1D788),
  (0x1D78A, 0x1D7A8), (0x1D7AA, 0x1D7C2), (0x1D7C4, 0x1D7CB), (0x1DF00, 0x1DF1E), (0x1E100, 0x1E12C),
  (0x1E137, 0x1E13D), (0x1E14E, 0x1E14E), (0x1E290, 0x1E2AD), (0x1E2C0, 0x1E2EB), (0x1E7E0, 0x1E7E6),
  (0x1E7E8, 0x1E7EB), (0x1E7ED, 0x1E7EE), (0x1E7F0, 0x1E7FE), (0x1E800, 0x1E8C4), (0x1E900, 0x1E943),
  (0x1E94B, 0x1E94B), (0x1EE00, 0x1EE03), (0x1EE05, 0x1EE1F), (0x1EE21, 0x1EE22), (0x1EE24, 0x1EE24),
  (0x1EE27, 0x1EE27), (0x1EE29, 0x1EE32), (0x1EE34, 0x1EE37), (0x1EE39, 0x1EE39), (0x1EE3B, 0x1EE3B),
  (0x1EE42, 0x1EE42), (0x1EE47, 0x1EE47), (0x1EE49, 0x1EE49), (0x1EE4B, 0x1EE4B), (0x1EE4D, 0x1EE4F),
  (0x1EE51, 0x1EE52), (0x1EE54, 0x1EE54), (0x1EE57, 0x1EE57), (0x1EE59, 0x1EE59), (0x1EE5B, 0x1EE5B),
  (0x1EE5D, 0x1EE5D), (0x1EE5F, 0x1EE5F), (0x1EE61, 0x1EE62), (0x1EE64, 0x1EE64), (0x1EE67, 0x1EE6A),
  (0x1EE6C, 0x1EE72), (0x1EE74, 0x1EE77), (0x1EE79, 0x1EE7C), (0x1EE7E, 0x1EE7E), (0x1EE80, 0x1EE89),
  (0x1EE8B, 0x1EE9B), (0x1EEA1, 0x1EEA3), (0x1EEA5, 0x1EEA9), (0x1EEAB, 0x1EEBB), (0x20000, 0x2A6DF),
  (0x2A700, 0x2B738), (0x2B740, 0x2B81D), (0x2B820, 0x2CEA1), (0x2CEB0, 0x2EBE0), (0x2F800, 0x2FA1D),
  (0x30000, 0x3134A)]

/-- Go `unicode.IsLetter`.  For Latin-1 runes this is the
`properties[uint8(r)] & pLmask` fast path: ASCII letters plus U+00AA,
U+00B5, U+00BA, U+00C0..U+00D6, U+00D8..U+00F6, U+00F8..U+00FF.  Above
Latin-1, Go consults its full category-L tables, transcribed here as
`letterRangesAboveLatin1`. -/
def unicodeIsLetter (r : Char) : Bool :=
  if r.val ≤ 0xff then
    (0x41 ≤ r.val && r.val ≤ 0x5a) || (0x61 ≤ r.val && r.val ≤ 0x7a) ||
      r.val == 0xaa || r.val == 0xb5 || r.val == 0xba ||
      (0xc0 ≤ r.val && r.val ≤ 0xd6) || (0xd8 ≤ r.val && r.val ≤ 0xf6) ||
      (0xf8 ≤ r.val && r.val ≤ 0xff)
  else
    letterRangesAboveLatin1.any fun p =>
      decide (p.1 ≤ r.val.toNat) && decide (r.val.toNat ≤ p.2)

/-- `isLegalHTMLAttributeNameRune`: not a control, not one of
`space " ' > / =`, and not a Unicode noncharacter (the explicit
`unicode.RangeTable` of the source). -/
def isLegalHTMLAttributeNameRune (r : Char) : Bool :=
  if unicodeIsControl r then false
  else if r == ' ' || r == '"' || r == Char.ofNat 0x27 || r == '>' ||
      r == '/' || r == '=' then false
  else ¬ ((0xfdd0 ≤ r.val && r.val ≤ 0xfdef) ||
    (0xfffe ≤ r.val && r.val ≤ 0xffff) ||
    (0x1fffe ≤ r.val && r.val ≤ 0x1ffff) ||
    (0x2fffe ≤ r.val && r.val ≤ 0x2ffff) ||
    (0x3fffe ≤ r.val && r.val ≤ 0x3ffff) ||
    (0x4fffe ≤ r.val && r.val ≤ 0x4ffff) ||
    (0x5fffe ≤ r.val && r.val ≤ 0x5ffff) ||
    (0x6fffe ≤ r.val && r.val ≤ 0x6ffff) ||
    (0x7fffe ≤ r.val && r.val ≤ 0x7ffff) ||
    (0x8fffe ≤ r.val && r.val ≤ 0x8ffff) ||
    (0x9fffe ≤ r.val && r.val ≤ 0x9ffff) ||
    (0xafffe ≤ r.val && r.val ≤ 0xaffff) ||
    (0xbfffe ≤ r.val && r.val ≤ 0xbffff) ||
    (0xcfffe ≤ r.val && r.val ≤ 0xcffff) ||
    (0xdfffe ≤ r.val && r.val ≤ 0xdffff) ||
    (0xefffe ≤ r.val && r.val ≤ 0xeffff) ||
    (0xffffe ≤ r.val && r.val ≤ 0xfffff) ||
    (0x10fffe ≤ r.val && r.val ≤ 0x10ffff))

/-- `isLegalHTMLAttributeValueUnquoted`: not ASCII whitespace and none of
`" ' = < > backtick`. -/
def isLegalHTMLAttributeValueUnquoted (r : Char) : Bool :=
  if isASCIIWhitespace r then false
  else ¬ (r == '"' || r == Char.ofNat 0x27 || r == '=' || r == '<' ||
    r == '>' || r == Char.ofNat 0x60)

/-- `state.AdvanceBy`: read and write `n` runes. -/
def AdvanceBy (s : St) : Nat → St × Option Err
  | 0 => (s, none)
  | n + 1 =>
    match readRune s with
    | none => (s, some .eof)
    | some (c, s₁) => AdvanceBy (writeRune s₁ c) n

/-- `state.AdvanceUntil`: read and write runes until `stopBefore` is just
ahead. -/
def AdvanceUntil (fuel : Nat) (s : St) (stopBefore : List Char) :
    St × Option Err :=
  match fuel with
  | 0 => (s, some .outOfFuel)
  | fuel + 1 =>
    if PeekEquals s stopBefore then (s, none)
    else
      match readRune s with
      | none => (s, some .eof)
      | some (c, s₁) => AdvanceUntil fuel (writeRune s₁ c) stopBefore

/-- `state.AdvanceUntilTrue`: read and write runes until the peeked rune
satisfies `f`; that rune remains unread. -/
def AdvanceUntilTrue (fuel : Nat) (s : St) (f : Char → Bool) :
    St × Option Err :=
  match fuel with
  | 0 => (s, some .outOfFuel)
  | fuel + 1 =>
    match peekRune s with
    | none => (s, some .eof)
    | some p =>
      if f p then (s, none)
      else
        match readRune s with
        | none => (s, some .panicked)
        | some (c, s₁) => AdvanceUntilTrue fuel (writeRune s₁ c) f

/-- `state.AdvanceUntilFalse`. -/
def AdvanceUntilFalse (fuel : Nat) (s : St) (f : Char → Bool) :
    St × Option Err :=
  AdvanceUntilTrue fuel s fun r => ! f r

/-- `state.AdvanceThrough`: copy through until and including `stopAfter`.
(`AdvanceBy(len(stopAfter))` counts bytes in Go; all needles are ASCII.) -/
def AdvanceThrough (fuel : Nat) (s : St) (stopAfter : List Char) :
    St × Option Err :=
  match AdvanceUntil fuel s stopAfter with
  | (s₁, some e) => (s₁, some e)
  | (s₁, none) => AdvanceBy s₁ stopAfter.length

/-- The apostrophe character `U+0027`. -/
def apostrophe : Char := Char.ofNat 0x27

/-- The backtick character `U+0060`. -/
def backtick : Char := Char.ofNat 0x60

/-- `inSpanEndingWithSingleUnescapedRune`: read and write runes until a
`sentinel` not preceded (in the output) by a backslash has been copied
through.  The `previousRune` inspected by the loop is the last rune of the
output buffer BEFORE the freshly read rune is written; `mustPreviousRune`
panics when the buffer is empty.  The trailing check models the
postcondition `fmt.Errorf`. -/
def inSpanEndingWithSingleUnescapedRune (fuel : Nat) (s : St)
    (sentinel : Char) : St × Option Err :=
  match fuel with
  | 0 => (s, some .outOfFuel)
  | fuel + 1 =>
    match readRune s with
    | none => (s, some .eof)
    | some (r, s₁) =>
      match previousRune s₁ with
      | none => (s₁, some .panicked)
      | some prev =>
        let s₂ := writeRune s₁ r
        if r == sentinel && prev != '\\' then
          if previousRune s₂ == some sentinel then (s₂, none)
          else (s₂, some .postcondition)
        else inSpanEndingWithSingleUnescapedRune fuel s₂ sentinel

/-- `inSingleBacktickCodeSpan`. -/
def inSingleBacktickCodeSpan (fuel : Nat) (s : St) : St × Option Err :=
  inSpanEndingWithSingleUnescapedRune fuel s backtick

/-- `inTripleBacktickCodeBlock`: copy through a `` ``` `` on its own line. -/
def inTripleBacktickCodeBlock (fuel : Nat) (s : St) : St × Option Err :=
  AdvanceThrough fuel s ('\n' :: backtick :: backtick :: backtick :: ['\n'])

/-- `inYAMLFrontMatter`: copy through a `---` on its own line. -/
def inYAMLFrontMatter (fuel : Nat) (s : St) : St × Option Err :=
  AdvanceThrough fuel s "\n---\n".toList

/-- `inDoubleQuotedAttributeValue`. -/
def inDoubleQuotedAttributeValue (fuel : Nat) (s : St) : St × Option Err :=
  inSpanEndingWithSingleUnescapedRune fuel s '"'

/-- `inSingleQuotedAttributeValue`. -/
def inSingleQuotedAttributeValue (fuel : Nat) (s : St) : St × Option Err :=
  inSpanEndingWithSingleUnescapedRune fuel s apostrophe

/-- `inUnquotedAttributeValue`: copy runes while they are legal in an
unquoted attribute value; the first illegal rune remains unread. -/
def inUnquotedAttributeValue (fuel : Nat) (s : St) : St × Option Err :=
  match fuel with
  | 0 => (s, some .outOfFuel)
  | fuel + 1 =>
    match peekRune s with
    | none => (s, some .eof)
    | some p =>
      if ¬ isLegalHTMLAttributeValueUnquoted p then (s, none)
      else
        match readRune s with
        | none => (s, some .panicked)
        | some (c, s₁) => inUnquotedAttributeValue fuel (writeRune s₁ c)

/-- `atBackslash`: copy the backslash and the rune after it verbatim. -/
def atBackslash (s : St) : St × Option Err :=
  match readRune s with
  | none => (s, some .panicked)
  | some (r, s₁) =>
    if r != '\\' then (s₁, some .badRune)
    else
      let s₂ := writeRune s₁ r
      match readRune s₂ with
      | none => (s₂, some .eof)
      | some (r₂, s₃) => (writeRune s₃ r₂, none)

/-- `atHyphen`: a `-` at byte offset 1 followed by `--` starts YAML front
matter; otherwise the hyphen is copied through. -/
def atHyphen (fuel : Nat) (s : St) : St × Option Err :=
  match readRune s with
  | none => (s, some .panicked)
  | some (r, s₁) =>
    if r != '-' then (s₁, some .badRune)
    else if s₁.off == 1 && PeekEquals s₁ "--".toList then
      inYAMLFrontMatter fuel (writeRune s₁ r)
    else (writeRune s₁ r, none)

/-- `atBacktick`: decide between a triple-backtick code block and a
single-backtick code span.  `previousRuneMatchesAny` is the constantly
false helper, so the first branch is dead code in the Go program. -/
def atBacktick (fuel : Nat) (s : St) : St × Option Err :=
  match readRune s with
  | none => (s, some .panicked)
  | some (r, s₁) =>
    if r != backtick then (s₁, some .badRune)
    else if PeekEquals s₁ [backtick, backtick] &&
        previousRuneMatchesAny s₁ ['\n'] then
      inTripleBacktickCodeBlock fuel (writeRune s₁ r)
    else inSingleBacktickCodeSpan fuel (writeRune s₁ r)

/-- `inHTMLEndTagName`: called with the `/` after `<` still unread, so the
`PeekEquals("code")` test compares `code` against a tail that starts with
`/` and never succeeds; then copy through `>`. -/
def inHTMLEndTagName (fuel : Nat) (s : St) : St × Option Err :=
  let s₁ := if PeekEquals s "code".toList then { s with depth := s.depth - 1 }
    else s
  AdvanceThrough fuel s₁ ">".toList

/-- `inCodeElement`: copy verbatim through the literal `</code`, then copy
runes up to whitespace (this copies the `>` of a plain `</code>`), then
copy one more rune. -/
def inCodeElement (fuel : Nat) (s : St) : St × Option Err :=
  match AdvanceThrough fuel s "</code".toList with
  | (s₁, some e) => (s₁, some e)
  | (s₁, none) =>
    match AdvanceUntilTrue fuel s₁ isASCIIWhitespace with
    | (s₂, some e) => (s₂, some e)
    | (s₂, none) =>
      match readRune s₂ with
      | none => (s₂, some .panicked)
      | some (c, s₃) => (writeRune s₃ c, none)

/-- `handleHTMLAttributes`: churn through HTML attributes.  Each Go loop
iteration is one unfolding; the loop continues while the attribute-value
parse returned nil.  The leading `mustPeekRune` panics when the input is
exhausted at the start of an iteration. -/
def handleHTMLAttributes (fuel : Nat) (s : St) : St × Option Err :=
  match fuel with
  | 0 => (s, some .outOfFuel)
  | fuel + 1 =>
    match peekRune s with
    | none => (s, some .panicked)
    | some p₀ =>
      match (if isASCIIWhitespace p₀ then AdvanceUntilFalse fuel s isASCIIWhitespace
        else (s, none)) with
      | (s₁, some e) => (s₁, some e)
      | (s₁, none) =>
        match AdvanceUntilFalse fuel s₁ isLegalHTMLAttributeNameRune with
        | (s₂, some e) => (s₂, some e)
        | (s₂, none) =>
          match peekRune s₂ with
          | none => (s₂, some .panicked)
          | some q =>
            match (if isASCIIWhitespace q then
                AdvanceUntilFalse fuel s₂ isASCIIWhitespace
              else (s₂, none)) with
            | (s₃, some e) => (s₃, some e)
            | (s₃, none) =>
              match peekRune s₃ with
              | none => (s₃, some .panicked)
              | some p₁ =>
                if ¬ (p₁ == '>' || p₁ == '=') then (s₃, some .fatal)
                else if p₁ == '>' then (s₃, none)
                else
                  match readRune s₃ with
                  | none => (s₃, some .panicked)
                  | some (c, s₄x) =>
                    let s₄ := writeRune s₄x c
                    match peekRune s₄ with
                    | none => (s₄, some .eof)
                    | some p₂ =>
                      match (if isASCIIWhitespace p₂ then
                          AdvanceUntilFalse fuel s₄ isASCIIWhitespace
                        else (s₄, none)) with
                      | (s₅, some e) => (s₅, some e)
                      | (s₅, none) =>
                        match peekRune s₅ with
                        | none => (s₅, some .eof)
                        | some p₃ =>
                          match (if p₃ == '"' then
                              match readRune s₅ with
                              | none => (s₅, some .panicked)
                              | some (c₂, s₆x) =>
                                inDoubleQuotedAttributeValue fuel
                                  (writeRune s₆x c₂)
                            else if p₃ == apostrophe then
                              match readRune s₅ with
                              | none => (s₅, some .panicked)
                              | some (c₂, s₆x) =>
                                inSingleQuotedAttributeValue fuel
                                  (writeRune s₆x c₂)
                            else if isLegalHTMLAttributeValueUnquoted p₃ then
                              inUnquotedAttributeValue fuel s₅
                            else (s₅, some .weirdAttributeValueRune)) with
                          | (s₆, some e) => (s₆, some e)
                          | (s₆, none) => handleHTMLAttributes fuel s₆

/-- `inHTMLStartTagName`: read and write an HTML start tag.  The
`PeekEquals("code")` test fires on any start tag whose name merely begins
with `code`.  The inline name loop (peek; break on whitespace or `>`;
copy) is `AdvanceUntilTrue` with the break condition as predicate. -/
def inHTMLStartTagName (fuel : Nat) (s : St) : St × Option Err :=
  let depthAtStart := s.depth
  let s₀ := if PeekEquals s "code".toList then { s with depth := s.depth + 1 }
    else s
  match AdvanceUntilTrue fuel s₀
      (fun p => isASCIIWhitespace p || p == '>') with
  | (s₁, some e) => (s₁, some e)
  | (s₁, none) =>
    match peekRune s₁ with
    | none => (s₁, some .panicked)
    | some p₁ =>
      if ¬ (p₁ == '>' || isASCIIWhitespace p₁) then (s₁, some .fatal)
      else
        match AdvanceUntilFalse fuel s₁ isASCIIWhitespace with
        | (s₂, some e) => (s₂, some e)
        | (s₂, none) =>
          match peekRune s₂ with
          | none => (s₂, some .panicked)
          | some p₂ =>
            if p₂ == '>' then
              if s₂.depth > depthAtStart then inCodeElement fuel s₂
              else (s₂, none)
            else if unicodeIsLetter p₂ then
              match handleHTMLAttributes fuel s₂ with
              | (s₃, some e) => (s₃, some e)
              | (s₃, none) =>
                match peekRune s₃ with
                | none => (s₃, some .eof)
                | some _ =>
                  if s₃.depth > depthAtStart then inCodeElement fuel s₃
                  else (s₃, none)
            else (s₂, none)

/-- `atLessThan`: copy the `<`; a following letter starts a start tag, a
`/` an end tag; anything else makes it a literal less-than sign. -/
def atLessThan (fuel : Nat) (s : St) : St × Option Err :=
  match readRune s with
  | none => (s, some .panicked)
  | some (r, s₁) =>
    if r != '<' then (s₁, some .badRune)
    else
      let s₂ := writeRune s₁ r
      match peekRune s₂ with
      | none => (s₂, some .eof)
      | some p =>
        if unicodeIsLetter p then inHTMLStartTagName fuel s₂
        else if p == '/' then inHTMLEndTagName fuel s₂
        else
          match readRune s₂ with
          | none => (s₂, some .panicked)
          | some (c, s₃) => (writeRune s₃ c, none)

/-- The domain of the `whatDo` dispatch map built by `newState`. -/
def whatDoQ (c : Char) : Bool :=
  c == '\\' || c == '"' || c == '“' || c == apostrophe || c == '‘' ||
    c == '-' || c == backtick || c == '<'

mutual

/-- One dispatch through the `whatDo` map: `s.whatDo[p]` invoked on `s`.
Only called when `whatDoQ p` holds; the final branch is unreachable. -/
def dispatchStep (fuel : Nat) (p : Char) (s : St) : St × Option Err :=
  match fuel with
  | 0 => (s, some .outOfFuel)
  | fuel + 1 =>
    if p == '\\' then atBackslash s
    else if p == '"' || p == '“' then atDoubleQuote fuel s
    else if p == apostrophe || p == '‘' then atSingleQuote fuel s
    else if p == '-' then atHyphen fuel s
    else if p == backtick then atBacktick fuel s
    else if p == '<' then atLessThan fuel s
    else (s, some .panicked)

/-- `initial`: the main loop.  Peek; dispatch registered triggers; copy
anything else verbatim; stop on the first error (which may be `io.EOF`).
The Go loop only exits with a non-nil error, so the error is not optional
here. -/
def initial (fuel : Nat) (s : St) : St × Err :=
  match fuel with
  | 0 => (s, .outOfFuel)
  | fuel + 1 =>
    match peekRune s with
    | none => (s, .eof)
    | some p =>
      if whatDoQ p then
        match dispatchStep fuel p s with
        | (s₁, none) => initial fuel s₁
        | (s₁, some e) => (s₁, e)
      else
        match readRune s with
        | none => (s, .panicked)
        | some (c, s₁) => initial fuel (writeRune s₁ c)

/-- `atDoubleQuote`: read an assumed-to-exist `"` or `“`, write a `“`, and
hand off to `inDoubleQuotes`. -/
def atDoubleQuote (fuel : Nat) (s : St) : St × Option Err :=
  match fuel with
  | 0 => (s, some .outOfFuel)
  | fuel + 1 =>
    match readRune s with
    | none => (s, some .panicked)
    | some (r, s₁) =>
      if ¬ (r == '"' || r == '“') then (s₁, some .badRune)
      else inDoubleQuotes fuel (writeRune s₁ '“')

/-- `inDoubleQuotes`: copy runes (honouring the dispatch table) until a
closing `"` or `”`, which is dropped and replaced by a written `”`. -/
def inDoubleQuotes (fuel : Nat) (s : St) : St × Option Err :=
  match fuel with
  | 0 => (s, some .outOfFuel)
  | fuel + 1 =>
    match peekRune s with
    | none => (s, some .eof)
    | some p =>
      if p == '"' || p == '”' then
        match readRune s with
        | none => (s, some .panicked)
        | some (_, s₁) => (writeRune s₁ '”', none)
      else if whatDoQ p then
        match dispatchStep fuel p s with
        | (s₁, none) => inDoubleQuotes fuel s₁
        | (s₁, some e) => (s₁, some e)
      else
        match readRune s with
        | none => (s, some .panicked)
        | some (c, s₁) => inDoubleQuotes fuel (writeRune s₁ c)

/-- `atSingleQuote`: read an assumed-to-exist `'` or `‘`.  After a letter,
write `’` (apostrophe case).  The `>`/`)` lookbehind uses the constantly
false `previousRuneMatchesAny`, so that branch is dead code in the Go
program.  Otherwise write `‘` and enter `inSingleQuotes`. -/
def atSingleQuote (fuel : Nat) (s : St) : St × Option Err :=
  match fuel with
  | 0 => (s, some .outOfFuel)
  | fuel + 1 =>
    match readRune s with
    | none => (s, some .panicked)
    | some (r, s₁) =>
      if ¬ (r == apostrophe || r == '‘') then (s₁, some .badRune)
      else if previousRuneMatches s₁ unicodeIsLetter then
        (writeRune s₁ '’', none)
      else if r == apostrophe && previousRuneMatchesAny s₁ ['>', ')'] then
        (writeRune s₁ apostrophe, none)
      else inSingleQuotes fuel (writeRune s₁ '‘')

/-- `inSingleQuotes`: copy runes (honouring the dispatch table) until a
closing `'` or `’`; a closer preceded by a known contraction stem
(`can`/`you`/`don`) is written as `’` and the span continues. -/
def inSingleQuotes (fuel : Nat) (s : St) : St × Option Err :=
  match fuel with
  | 0 => (s, some .outOfFuel)
  | fuel + 1 =>
    match peekRune s with
    | none => (s, some .eof)
    | some p =>
      if p == apostrophe || p == '’' then
        match readRune s with
        | none => (s, some .panicked)
        | some (_, s₁) =>
          match previousRunesMatchAny s₁
              ["can".toList, "you".toList, "don".toList] with
          | some _ => inSingleQuotes fuel (writeRune s₁ '’')
          | none => (writeRune s₁ '’', none)
      else if whatDoQ p then
        match dispatchStep fuel p s with
        | (s₁, none) => inSingleQuotes fuel s₁
        | (s₁, some e) => (s₁, some e)
      else
        match readRune s with
        | none => (s, some .panicked)
        | some (c, s₁) => inSingleQuotes fuel (writeRune s₁ c)

end

/-- The number of bytes of the UTF-8 encoding of an output buffer (what
`bytes.Buffer.WriteTo` reports as written). -/
def utf8Len (l : List Char) : Nat :=
  (l.map fun c => c.utf8Size).sum

/-- A fuel amount that is sufficient for every input (each unit of work
consumes at least one rune per bounded number of calls). -/
def defaultFuel (input : List Char) : Nat :=
  8 * input.length + 16

/-- Run the `initial` loop from a fresh `newState` on the whole input. -/
def runInitial (input : List Char) : St × Err :=
  initial (defaultFuel input) { rest := input, off := 0, out := [], depth := 0 }

/-- `Educate`: run the parser; a non-`io.EOF` error yields `written = 0`
with nothing written to the destination, otherwise the whole buffer is
written.  Result: (written byte count, destination contents, error). -/
def Educate (input : List Char) : Nat × List Char × Option Err :=
  match runInitial input with
  | (s, .eof) => (utf8Len s.out, s.out, none)
  | (_, e) => (0, [], some e)

/-- A character that keeps the transform inert: not a straight double or
single quote, not a curly opening single quote, and not `<`. -/
def quoteFree (c : Char) : Prop :=
  c ≠ '"' ∧ c ≠ apostrophe ∧ c ≠ '‘' ∧ c ≠ '<'

instance (c : Char) : Decidable (quoteFree c) := by
  unfold quoteFree
  infer_instance

/-- Every occurrence of `sentinel` in the list is escaped: it is
immediately preceded by a backslash.  `prev` is the character standing just
before the list's head (inside a span, the output mirrors the input, so
this is exactly the `previousRune` the span loop inspects; initially it is
the span's opening delimiter).  This is precisely the condition under which
`inSpanEndingWithSingleUnescapedRune` runs past every sentinel of the
list. -/
def escapedOnly (sentinel : Char) : Char → List Char → Bool
  | _, [] => true
  | prev, c :: t => (c != sentinel || prev == '\\') && escapedOnly sentinel c t

/-- Induction goal for the `initial` loop: quote-free input is copied
verbatim to the end of input. -/
def InitialCopies (n : Nat) : Prop :=
  ∀ (l : List Char) (off : Nat) (out : List Char) (depth : Int) (fuel : Nat),
    (∀ c ∈ l, quoteFree c) → l.length ≤ n → 3 * l.length + 1 ≤ fuel →
    initial fuel (St.mk l off out depth) =
      (St.mk [] (off + l.length) (out ++ l) depth, Err.eof)

/-- Induction goal for `inDoubleQuotes` on quote-free input: a nonempty
prefix is copied verbatim and the span closes (at a `”`, re-emitted
unchanged), or the whole remainder is copied and `io.EOF` is reported. -/
def InDQCopies (n : Nat) : Prop :=
  ∀ (l : List Char) (off : Nat) (out : List Char) (depth : Int) (fuel : Nat),
    (∀ c ∈ l, quoteFree c) → l.length ≤ n → 3 * l.length + 1 ≤ fuel →
    (∃ k, 1 ≤ k ∧ k ≤ l.length ∧
      inDoubleQuotes fuel (St.mk l off out depth) =
        (St.mk (l.drop k) (off + k) (out ++ l.take k) depth, none)) ∨
    inDoubleQuotes fuel (St.mk l off out depth) =
      (St.mk [] (off + l.length) (out ++ l) depth, some Err.eof)

/-! ## Basic reduction lemmas -/

@[simp]
theorem peekRune_mk (rest : List Char) (off : Nat) (out : List Char)
    (depth : Int) : peekRune (St.mk rest off out depth) = rest.head? := rfl

@[simp]
theorem readRune_mk_nil (off : Nat) (out : List Char) (depth : Int) :
    readRune (St.mk [] off out depth) = none := rfl

@[simp]
theorem readRune_mk_cons (c : Char) (t : List Char) (off : Nat)
    (out : List Char) (depth : Int) :
    readRune (St.mk (c :: t) off out depth) =
      some (c, St.mk t (off + 1) out depth) := rfl

@[simp]
theorem writeRune_mk (rest : List Char) (off : Nat) (out : List Char)
    (depth : Int) (c : Char) :
    writeRune (St.mk rest off out depth) c =
      St.mk rest off (out ++ [c]) depth := rfl

@[simp]
theorem previousRune_mk (rest : List Char) (off : Nat) (out : List Char)
    (depth : Int) :
    previousRune (St.mk rest off out depth) = out.getLast? := rfl

/-- `previousRuneMatchesAny` is constantly false for any list of non-NUL
candidates: the Go helper compares a candidate only when `previousRune`
reports an error, in which case the rune compared is the zero rune. -/
theorem previousRuneMatchesAny_false (s : St) (cs : List Char)
    (h : ∀ c ∈ cs, c ≠ Char.ofNat 0) :
    previousRuneMatchesAny s cs = false := by
  simp only [previousRuneMatchesAny, List.any_eq_false]
  intro c hc
  cases previousRune s with
  | none =>
    simp only [Bool.not_eq_true]
    exact beq_eq_false_iff_ne.mpr fun h0 => h c hc h0.symm
  | some r => simp

/-! ## C1: double-quote spans -/

/-- The body of `inDoubleQuotes` over a stretch of characters with no
special meaning (neither a registered trigger nor a terminator): every
such character is copied verbatim, and the first `"`/`”` terminates the
span, written as `”`. -/
theorem inDoubleQuotes_plain (mid : List Char) :
    ∀ (off : Nat) (out : List Char) (depth : Int) (d : Char)
      (rest : List Char) (fuel : Nat),
      (∀ c ∈ mid, whatDoQ c = false ∧ c ≠ '”') →
      (d = '"' ∨ d = '”') →
      mid.length + 1 ≤ fuel →
      inDoubleQuotes fuel (St.mk (mid ++ d :: rest) off out depth) =
        (St.mk rest (off + (mid.length + 1)) (out ++ (mid ++ ['”'])) depth,
          none) := by
  induction mid with
  | nil =>
    intro off out depth d rest fuel _ hd hfuel
    obtain ⟨f, rfl⟩ : ∃ f, fuel = f + 1 := ⟨fuel - 1, by omega⟩
    have hdq : (d == '"' || d == '”') = true := by
      rcases hd with rfl | rfl <;> decide
    simp [inDoubleQuotes, hdq]
  | cons m mid ih =>
    intro off out depth d rest fuel hmid hd hfuel
    obtain ⟨f, rfl⟩ : ∃ f, fuel = f + 1 := ⟨fuel - 1, by omega⟩
    obtain ⟨hw, hterm⟩ := hmid m (List.mem_cons_self m mid)
    have h1 : (m == '"') = false := by
      refine beq_eq_false_iff_ne.mpr fun h => ?_
      subst h; simp [whatDoQ] at hw
    have h2 : (m == '”') = false := beq_eq_false_iff_ne.mpr hterm
    simp only [List.cons_append, inDoubleQuotes, peekRune_mk, List.head?_cons,
      h1, h2, Bool.or_self, Bool.false_eq_true, if_false, hw,
      readRune_mk_cons, writeRune_mk]
    rw [ih (off + 1) (out ++ [m]) depth d rest f
      (fun c hc => hmid c (List.mem_cons_of_mem m hc)) hd (by simp only [List.length_cons] at hfuel; omega)]
    simp only [Prod.mk.injEq, St.mk.injEq, List.append_assoc, List.cons_append,
      List.nil_append, List.length_cons, and_true, true_and]
    omega

/-- C1.  Handling a double-quote trigger (straight `"` or curly `“`) always
writes an opening `“` and enters the double-quote span; over a stretch of
ordinary characters the span ends at the next `"`/`”` of the input, and
that terminator is written as the closing `”` no matter which of the two
literal characters appeared. -/
theorem atDoubleQuote_opens_and_normalizes (c : Char) (mid : List Char)
    (d : Char) (rest : List Char) (off : Nat) (out : List Char) (depth : Int)
    (fuel : Nat)
    (hc : c = '"' ∨ c = '“') (hd : d = '"' ∨ d = '”')
    (hmid : ∀ x ∈ mid, whatDoQ x = false ∧ x ≠ '”')
    (hfuel : mid.length + 2 ≤ fuel) :
    atDoubleQuote fuel (St.mk (c :: (mid ++ d :: rest)) off out depth) =
      (St.mk rest (off + (mid.length + 2))
        (out ++ ('“' :: (mid ++ ['”']))) depth, none) := by
  obtain ⟨f, rfl⟩ : ∃ f, fuel = f + 1 := ⟨fuel - 1, by omega⟩
  have hcq : (c == '"' || c == '“') = true := by
    rcases hc with rfl | rfl <;> decide
  simp only [atDoubleQuote, readRune_mk_cons, hcq, not_true_eq_false,
    Bool.true_eq_false, if_false, writeRune_mk]
  rw [inDoubleQuotes_plain mid (off + 1) (out ++ ['“']) depth d rest f hmid hd
    (by omega)]
  simp only [Prod.mk.injEq, St.mk.injEq, List.append_assoc, List.cons_append,
    List.nil_append, and_true, true_and]
  omega

/-- Witness for C1 at a concrete input: `"a”` with a trailing `x`. -/
theorem atDoubleQuote_opens_and_normalizes_witness :
    atDoubleQuote 5 (St.mk ['"', 'a', '”', 'x'] 0 [] 0) =
      (St.mk ['x'] 3 ['“', 'a', '”'] 0, none) :=
  atDoubleQuote_opens_and_normalizes '"' ['a'] '”' ['x'] 0 [] 0 5
    (Or.inl rfl) (Or.inr rfl) (by decide) (by decide)

/-! ## C2: single quote after a letter -/

/-- C2.  When the single-quote handler fires (on `'` or `‘`) and the rune
most recently written to the output is a Unicode letter, the handler
writes `’` (never `‘`), consumes exactly the quote character, and returns
at once without entering a single-quote span. -/
theorem atSingleQuote_after_letter (q l : Char) (t : List Char) (off : Nat)
    (out : List Char) (depth : Int) (fuel : Nat)
    (hq : q = apostrophe ∨ q = '‘')
    (hlast : out.getLast? = some l)
    (hletter : unicodeIsLetter l = true)
    (hfuel : 1 ≤ fuel) :
    atSingleQuote fuel (St.mk (q :: t) off out depth) =
      (St.mk t (off + 1) (out ++ ['’']) depth, none) := by
  obtain ⟨f, rfl⟩ : ∃ f, fuel = f + 1 := ⟨fuel - 1, by omega⟩
  have hqq : (q == apostrophe || q == '‘') = true := by
    rcases hq with rfl | rfl <;> decide
  have hmatch : previousRuneMatches (St.mk t (off + 1) out depth)
      unicodeIsLetter = true := by
    simp [previousRuneMatches, hlast, hletter]
  simp [atSingleQuote, hqq, hmatch]

/-- Witness for C2 at a concrete input: apostrophe right after the
non-Latin-1 letter `π`. -/
theorem atSingleQuote_after_letter_witness :
    atSingleQuote 1 (St.mk [apostrophe] 0 ['π'] 0) =
      (St.mk [] 1 ['π', '’'] 0, none) :=
  atSingleQuote_after_letter apostrophe 'π' [] 0 ['π'] 0 1 (Or.inl rfl) rfl
    (by decide) (by decide)

/-! ## C4: attribute values are copied verbatim -/

theorem getLast?_some_of_ne_nil (l : List Char) (h : l ≠ []) :
    ∃ a, l.getLast? = some a := by
  cases hl : l.getLast? with
  | none => exact absurd (List.getLast?_eq_none_iff.mp hl) h
  | some a => exact ⟨a, rfl⟩

theorem getLast?_append_singleton (l : List Char) (a : Char) :
    (l ++ [a]).getLast? = some a := by
  simp [List.getLast?_append_cons]

/-- `inSpanEndingWithSingleUnescapedRune` copies a stretch of input whose
every sentinel occurrence is backslash-escaped verbatim, then copies the
closing (unescaped) sentinel through and returns. -/
theorem inSpan_copies (val : List Char) :
    ∀ (sentinel : Char) (rest : List Char) (off : Nat) (out : List Char)
      (depth : Int) (fuel : Nat) (prev : Char),
      out.getLast? = some prev →
      escapedOnly sentinel prev val = true →
      (out ++ val).getLast? ≠ some '\\' →
      val.length + 1 ≤ fuel →
      inSpanEndingWithSingleUnescapedRune fuel
          (St.mk (val ++ sentinel :: rest) off out depth) sentinel =
        (St.mk rest (off + (val.length + 1)) (out ++ (val ++ [sentinel]))
          depth, none) := by
  induction val with
  | nil =>
    intro sentinel rest off out depth fuel prev hprev _ hnb hfuel
    obtain ⟨f, rfl⟩ : ∃ f, fuel = f + 1 := ⟨fuel - 1, by omega⟩
    have hprevne : prev ≠ '\\' := by
      intro h
      subst h
      exact hnb (by simpa using hprev)
    have hbne : (prev != '\\') = true := by simp [bne_iff_ne, hprevne]
    have hpost : (out ++ [sentinel]).getLast? = some sentinel :=
      getLast?_append_singleton out sentinel
    simp [inSpanEndingWithSingleUnescapedRune, hprev, hbne, hpost]
  | cons v val ih =>
    intro sentinel rest off out depth fuel prev hprev hesc hnb hfuel
    obtain ⟨f, rfl⟩ : ∃ f, fuel = f + 1 := ⟨fuel - 1, by omega⟩
    rw [escapedOnly, Bool.and_eq_true] at hesc
    have hcond : (v == sentinel && prev != '\\') = false := by
      cases hv : v == sentinel with
      | false => simp [hv]
      | true =>
        have hpb : (prev == '\\') = true := by
          have h₁ := hesc.1
          rw [bne, hv] at h₁
          simpa using h₁
        simp [hv, bne, hpb]
    simp only [List.cons_append, inSpanEndingWithSingleUnescapedRune,
      readRune_mk_cons, previousRune_mk, hprev, writeRune_mk, hcond,
      Bool.false_eq_true, if_false]
    rw [ih sentinel rest (off + 1) (out ++ [v]) depth f v
      (getLast?_append_singleton out v) hesc.2
      (by simp only [List.append_assoc, List.singleton_append]; exact hnb)
      (by simp only [List.length_cons] at hfuel; omega)]
    simp only [Prod.mk.injEq, St.mk.injEq, List.append_assoc, List.cons_append,
      List.nil_append, List.length_cons, and_true, true_and]
    omega

/-- A list with no sentinel occurrence at all satisfies `escapedOnly` for
any preceding character. -/
theorem escapedOnly_of_not_mem (sentinel : Char) (val : List Char)
    (h : ∀ c ∈ val, c ≠ sentinel) :
    ∀ prev, escapedOnly sentinel prev val = true := by
  induction val with
  | nil =>
    intro prev
    rfl
  | cons c t ih =>
    intro prev
    rw [escapedOnly, Bool.and_eq_true]
    refine ⟨?_, ih (fun x hx => h x (List.mem_cons_of_mem c hx)) c⟩
    have hc : (c == sentinel) = false :=
      beq_eq_false_iff_ne.mpr (h c (List.mem_cons_self c t))
    simp [bne, hc]

/-- `AdvanceUntilTrue` copies a stretch on which the predicate is false and
stops in front of the first rune satisfying it. -/
theorem advanceUntilTrue_copies (pre : List Char) :
    ∀ (f : Char → Bool) (r : Char) (rest : List Char) (off : Nat)
      (out : List Char) (depth : Int) (fuel : Nat),
      (∀ c ∈ pre, f c = false) → f r = true → pre.length + 1 ≤ fuel →
      AdvanceUntilTrue fuel (St.mk (pre ++ r :: rest) off out depth) f =
        (St.mk (r :: rest) (off + pre.length) (out ++ pre) depth, none) := by
  induction pre with
  | nil =>
    intro f r rest off out depth fuel _ hr hfuel
    obtain ⟨g, rfl⟩ : ∃ g, fuel = g + 1 := ⟨fuel - 1, by omega⟩
    simp [AdvanceUntilTrue, hr]
  | cons p pre ih =>
    intro f r rest off out depth fuel hpre hr hfuel
    obtain ⟨g, rfl⟩ : ∃ g, fuel = g + 1 := ⟨fuel - 1, by omega⟩
    have hp : f p = false := hpre p (List.mem_cons_self p pre)
    simp only [List.cons_append, AdvanceUntilTrue, peekRune_mk,
      List.head?_cons, hp, Bool.false_eq_true, if_false, readRune_mk_cons,
      writeRune_mk]
    rw [ih f r rest (off + 1) (out ++ [p]) depth g
      (fun c hc => hpre c (List.mem_cons_of_mem p hc)) hr (by simp only [List.length_cons] at hfuel; omega)]
    simp only [Prod.mk.injEq, St.mk.injEq, List.append_assoc, List.cons_append,
      List.nil_append, List.length_cons, and_true, true_and]
    omega

/-- `AdvanceUntilFalse` copies a stretch on which the predicate is true and
stops in front of the first rune that falsifies it. -/
theorem advanceUntilFalse_copies (pre : List Char) (f : Char → Bool)
    (r : Char) (rest : List Char) (off : Nat) (out : List Char) (depth : Int)
    (fuel : Nat) (hpre : ∀ c ∈ pre, f c = true) (hr : f r = false)
    (hfuel : pre.length + 1 ≤ fuel) :
    AdvanceUntilFalse fuel (St.mk (pre ++ r :: rest) off out depth) f =
      (St.mk (r :: rest) (off + pre.length) (out ++ pre) depth, none) := by
  refine advanceUntilTrue_copies pre _ r rest off out depth fuel ?_ ?_ hfuel
  · intro c hc
    simp [hpre c hc]
  · simp [hr]

/-- `inUnquotedAttributeValue` copies a legal unquoted value verbatim and
leaves the first illegal rune unread. -/
theorem inUnquoted_copies (val : List Char) :
    ∀ (r : Char) (rest : List Char) (off : Nat) (out : List Char)
      (depth : Int) (fuel : Nat),
      (∀ c ∈ val, isLegalHTMLAttributeValueUnquoted c = true) →
      isLegalHTMLAttributeValueUnquoted r = false →
      val.length + 1 ≤ fuel →
      inUnquotedAttributeValue fuel (St.mk (val ++ r :: rest) off out depth) =
        (St.mk (r :: rest) (off + val.length) (out ++ val) depth, none) := by
  induction val with
  | nil =>
    intro r rest off out depth fuel _ hr hfuel
    obtain ⟨g, rfl⟩ : ∃ g, fuel = g + 1 := ⟨fuel - 1, by omega⟩
    simp [inUnquotedAttributeValue, hr]
  | cons v val ih =>
    intro r rest off out depth fuel hval hr hfuel
    obtain ⟨g, rfl⟩ : ∃ g, fuel = g + 1 := ⟨fuel - 1, by omega⟩
    have hv : isLegalHTMLAttributeValueUnquoted v = true :=
      hval v (List.mem_cons_self v val)
    simp only [List.cons_append, inUnquotedAttributeValue, peekRune_mk,
      List.head?_cons, hv, not_true_eq_false, if_false, readRune_mk_cons,
      writeRune_mk]
    rw [ih r rest (off + 1) (out ++ [v]) depth g
      (fun c hc => hval c (List.mem_cons_of_mem v hc)) hr (by simp only [List.length_cons] at hfuel; omega)]
    simp only [Prod.mk.injEq, St.mk.injEq, List.append_assoc, List.cons_append,
      List.nil_append, List.length_cons, and_true, true_and]
    omega

/-- After the attributes are done, `handleHTMLAttributes` stops in front of
the closing `>` of the start tag. -/
theorem handleHTMLAttributes_stop (rest : List Char) (off : Nat)
    (out : List Char) (depth : Int) (fuel : Nat) (hfuel : 2 ≤ fuel) :
    handleHTMLAttributes fuel (St.mk ('>' :: rest) off out depth) =
      (St.mk ('>' :: rest) off out depth, none) := by
  obtain ⟨f, rfl⟩ : ∃ f, fuel = f + 1 := ⟨fuel - 1, by omega⟩
  have hadv := advanceUntilFalse_copies [] isLegalHTMLAttributeNameRune '>'
    rest off out depth f (by simp) (by decide) (by simp; omega)
  simp only [List.nil_append, List.length_nil, Nat.add_zero,
    List.append_nil] at hadv
  simp [handleHTMLAttributes, hadv, show isASCIIWhitespace '>' = false from rfl]

/-- `handleHTMLAttributes` on a single attribute with a double-quoted
value: the name, the `=`, the delimiters and the whole value are copied
verbatim; nothing in the value is altered.  Interior double quotes are
allowed as long as each is backslash-escaped. -/
theorem handleHTMLAttributes_doubleQuoted (name val rest : List Char)
    (off : Nat) (out : List Char) (depth : Int) (fuel : Nat)
    (hname : name ≠ [])
    (hlegal : ∀ c ∈ name, isLegalHTMLAttributeNameRune c = true ∧
      isASCIIWhitespace c = false)
    (hval : escapedOnly '"' '"' val = true)
    (hvlast : val.getLast? ≠ some '\\')
    (hfuel : name.length + val.length + 8 ≤ fuel) :
    handleHTMLAttributes fuel
        (St.mk (name ++ '=' :: '"' :: (val ++ '"' :: '>' :: rest)) off out
          depth) =
      (St.mk ('>' :: rest) (off + (name.length + val.length + 3))
        (out ++ (name ++ '=' :: '"' :: (val ++ ['"']))) depth, none) := by
  obtain ⟨f, rfl⟩ : ∃ f, fuel = f + 1 := ⟨fuel - 1, by omega⟩
  obtain ⟨n₀, name', rfl⟩ : ∃ a l, name = a :: l := by
    cases name with
    | nil => exact absurd rfl hname
    | cons a l => exact ⟨a, l, rfl⟩
  have hws0 : isASCIIWhitespace n₀ = false := (hlegal n₀ (by simp)).2
  have hadv := advanceUntilFalse_copies (n₀ :: name')
    isLegalHTMLAttributeNameRune '='
    ('"' :: (val ++ '"' :: '>' :: rest)) off out depth f
    (fun c hc => (hlegal c hc).1) (by decide)
    (by simp only [List.length_cons] at hfuel ⊢; omega)
  simp only [List.cons_append] at hadv
  have hspan := inSpan_copies val '"' ('>' :: rest)
    (off + (n₀ :: name').length + 1 + 1)
    (out ++ (n₀ :: name') ++ ['='] ++ ['"']) depth f '"'
    (getLast?_append_singleton _ _)
    hval
    (by
      cases val with
      | nil =>
        simp only [List.append_nil, getLast?_append_singleton]
        decide
      | cons v vs =>
        rw [List.getLast?_append_of_ne_nil _ (by simp)]
        exact hvlast)
    (by simp only [List.length_cons] at hfuel; omega)
  have hstop := handleHTMLAttributes_stop rest
    (off + (n₀ :: name').length + 1 + 1 + (val.length + 1))
    (out ++ (n₀ :: name') ++ ['='] ++ ['"'] ++ (val ++ ['"'])) depth f
    (by simp only [List.length_cons] at hfuel; omega)
  simp only [List.cons_append, List.append_assoc, List.singleton_append,
    List.nil_append, List.length_cons] at hspan hstop
  simp only [List.cons_append, handleHTMLAttributes, peekRune_mk,
    List.head?_cons, hws0, Bool.false_eq_true, if_false, hadv,
    inDoubleQuotedAttributeValue]
  simp only [show isASCIIWhitespace '=' = false from rfl,
    show (('=' : Char) == '>') = false from rfl,
    show (('=' : Char) == '=') = true from rfl,
    show isASCIIWhitespace '"' = false from rfl,
    show (('"' : Char) == '"') = true from rfl,
    Bool.false_eq_true, if_false, Bool.false_or, if_true, not_true_eq_false,
    peekRune_mk, readRune_mk_cons, writeRune_mk, List.head?_cons,
    List.length_cons]
  simp only [List.append_assoc, List.singleton_append, List.cons_append,
    List.nil_append, List.length_cons, hspan, hstop]
  simp only [Prod.mk.injEq, St.mk.injEq, List.append_assoc, List.cons_append,
    List.singleton_append, List.nil_append, List.length_cons, and_true,
    true_and]
  first
  | trivial
  | omega

/-- `handleHTMLAttributes` on a single attribute with a single-quoted
value: everything, the value included, is copied verbatim.  Interior single
quotes are allowed as long as each is backslash-escaped. -/
theorem handleHTMLAttributes_singleQuoted (name val rest : List Char)
    (off : Nat) (out : List Char) (depth : Int) (fuel : Nat)
    (hname : name ≠ [])
    (hlegal : ∀ c ∈ name, isLegalHTMLAttributeNameRune c = true ∧
      isASCIIWhitespace c = false)
    (hval : escapedOnly apostrophe apostrophe val = true)
    (hvlast : val.getLast? ≠ some '\\')
    (hfuel : name.length + val.length + 8 ≤ fuel) :
    handleHTMLAttributes fuel
        (St.mk (name ++ '=' :: apostrophe ::
          (val ++ apostrophe :: '>' :: rest)) off out depth) =
      (St.mk ('>' :: rest) (off + (name.length + val.length + 3))
        (out ++ (name ++ '=' :: apostrophe :: (val ++ [apostrophe]))) depth,
        none) := by
  obtain ⟨f, rfl⟩ : ∃ f, fuel = f + 1 := ⟨fuel - 1, by omega⟩
  obtain ⟨n₀, name', rfl⟩ : ∃ a l, name = a :: l := by
    cases name with
    | nil => exact absurd rfl hname
    | cons a l => exact ⟨a, l, rfl⟩
  have hws0 : isASCIIWhitespace n₀ = false := (hlegal n₀ (by simp)).2
  have hadv := advanceUntilFalse_copies (n₀ :: name')
    isLegalHTMLAttributeNameRune '='
    (apostrophe :: (val ++ apostrophe :: '>' :: rest)) off out depth f
    (fun c hc => (hlegal c hc).1) (by decide)
    (by simp only [List.length_cons] at hfuel ⊢; omega)
  simp only [List.cons_append] at hadv
  have hspan := inSpan_copies val apostrophe ('>' :: rest)
    (off + (n₀ :: name').length + 1 + 1)
    (out ++ (n₀ :: name') ++ ['='] ++ [apostrophe]) depth f apostrophe
    (getLast?_append_singleton _ _)
    hval
    (by
      cases val with
      | nil =>
        simp only [List.append_nil, getLast?_append_singleton]
        decide
      | cons v vs =>
        rw [List.getLast?_append_of_ne_nil _ (by simp)]
        exact hvlast)
    (by simp only [List.length_cons] at hfuel; omega)
  have hstop := handleHTMLAttributes_stop rest
    (off + (n₀ :: name').length + 1 + 1 + (val.length + 1))
    (out ++ (n₀ :: name') ++ ['='] ++ [apostrophe] ++ (val ++ [apostrophe]))
    depth f (by simp only [List.length_cons] at hfuel; omega)
  simp only [List.cons_append, List.append_assoc, List.singleton_append,
    List.nil_append, List.length_cons] at hspan hstop
  simp only [List.cons_append, handleHTMLAttributes, peekRune_mk,
    List.head?_cons, hws0, Bool.false_eq_true, if_false, hadv,
    inSingleQuotedAttributeValue]
  simp only [show isASCIIWhitespace '=' = false from rfl,
    show (('=' : Char) == '>') = false from rfl,
    show (('=' : Char) == '=') = true from rfl,
    show isASCIIWhitespace apostrophe = false from rfl,
    show ((apostrophe : Char) == '"') = false from rfl,
    show ((apostrophe : Char) == apostrophe) = true from rfl,
    Bool.false_eq_true, if_false, Bool.false_or, if_true, not_true_eq_false,
    peekRune_mk, readRune_mk_cons, writeRune_mk, List.head?_cons,
    List.length_cons]
  simp only [List.append_assoc, List.singleton_append, List.cons_append,
    List.nil_append, List.length_cons, hspan, hstop]
  simp only [Prod.mk.injEq, St.mk.injEq, List.append_assoc, List.cons_append,
    List.singleton_append, List.nil_append, List.length_cons, and_true,
    true_and]
  first
  | trivial
  | omega

/-- `handleHTMLAttributes` on a single attribute with an unquoted value:
the value is copied verbatim and ends at the closing `>`. -/
theorem handleHTMLAttributes_unquoted (name val rest : List Char)
    (off : Nat) (out : List Char) (depth : Int) (fuel : Nat)
    (hname : name ≠ [])
    (hlegal : ∀ c ∈ name, isLegalHTMLAttributeNameRune c = true ∧
      isASCIIWhitespace c = false)
    (hval : ∀ c ∈ val, isLegalHTMLAttributeValueUnquoted c = true)
    (hvne : val ≠ [])
    (hfuel : name.length + val.length + 8 ≤ fuel) :
    handleHTMLAttributes fuel
        (St.mk (name ++ '=' :: (val ++ '>' :: rest)) off out depth) =
      (St.mk ('>' :: rest) (off + (name.length + val.length + 1))
        (out ++ (name ++ '=' :: val)) depth, none) := by
  obtain ⟨f, rfl⟩ : ∃ f, fuel = f + 1 := ⟨fuel - 1, by omega⟩
  obtain ⟨n₀, name', rfl⟩ : ∃ a l, name = a :: l := by
    cases name with
    | nil => exact absurd rfl hname
    | cons a l => exact ⟨a, l, rfl⟩
  obtain ⟨v₀, val', rfl⟩ : ∃ a l, val = a :: l := by
    cases val with
    | nil => exact absurd rfl hvne
    | cons a l => exact ⟨a, l, rfl⟩
  have hws0 : isASCIIWhitespace n₀ = false := (hlegal n₀ (by simp)).2
  have hv0 : isLegalHTMLAttributeValueUnquoted v₀ = true := hval v₀ (by simp)
  have hv0ws : isASCIIWhitespace v₀ = false := by
    by_contra h
    simp only [Bool.not_eq_false] at h
    simp [isLegalHTMLAttributeValueUnquoted, h] at hv0
  have hv0dq : (v₀ == '"') = false := by
    refine beq_eq_false_iff_ne.mpr fun h => ?_
    subst h
    exact absurd hv0 (by decide)
  have hv0sq : (v₀ == apostrophe) = false := by
    refine beq_eq_false_iff_ne.mpr fun h => ?_
    subst h
    exact absurd hv0 (by decide)
  have hadv := advanceUntilFalse_copies (n₀ :: name')
    isLegalHTMLAttributeNameRune '=' ((v₀ :: val') ++ '>' :: rest) off out
    depth f (fun c hc => (hlegal c hc).1) (by decide)
    (by simp only [List.length_cons] at hfuel ⊢; omega)
  simp only [List.cons_append] at hadv
  have huq := inUnquoted_copies (v₀ :: val') '>' rest
    (off + (n₀ :: name').length + 1) (out ++ (n₀ :: name') ++ ['=']) depth f
    hval (by decide) (by simp only [List.length_cons] at hfuel ⊢; omega)
  have hstop := handleHTMLAttributes_stop rest
    (off + (n₀ :: name').length + 1 + (v₀ :: val').length)
    (out ++ (n₀ :: name') ++ ['='] ++ (v₀ :: val')) depth f
    (by simp only [List.length_cons] at hfuel; omega)
  simp only [List.cons_append, List.append_assoc, List.singleton_append,
    List.nil_append, List.length_cons] at huq hstop
  simp only [List.cons_append, handleHTMLAttributes, peekRune_mk,
    List.head?_cons, hws0, Bool.false_eq_true, if_false, hadv]
  simp only [show isASCIIWhitespace '=' = false from rfl,
    show (('=' : Char) == '>') = false from rfl,
    show (('=' : Char) == '=') = true from rfl,
    hv0ws, hv0dq, hv0sq, hv0,
    Bool.false_eq_true, if_false, Bool.false_or, if_true, not_true_eq_false,
    peekRune_mk, readRune_mk_cons, writeRune_mk, List.head?_cons,
    List.length_cons]
  simp only [List.append_assoc, List.singleton_append, List.cons_append,
    List.nil_append, List.length_cons, huq, hstop]
  simp only [Prod.mk.injEq, St.mk.injEq, List.append_assoc, List.cons_append,
    List.singleton_append, List.nil_append, List.length_cons, and_true,
    true_and]
  first
  | trivial
  | omega

/-- C4.  Inside a start tag, every attribute value — double-quoted
(backslash-escaped interior double quotes allowed), single-quoted
(backslash-escaped interior single quotes allowed), or unquoted — is
copied to the output verbatim by `handleHTMLAttributes`; quote marks
inside the value are never curled. -/
theorem handleHTMLAttributes_values_verbatim :
    (∀ (name val rest : List Char) (off : Nat) (out : List Char)
      (depth : Int) (fuel : Nat), name ≠ [] →
      (∀ c ∈ name, isLegalHTMLAttributeNameRune c = true ∧
        isASCIIWhitespace c = false) →
      escapedOnly '"' '"' val = true → val.getLast? ≠ some '\\' →
      name.length + val.length + 8 ≤ fuel →
      handleHTMLAttributes fuel
          (St.mk (name ++ '=' :: '"' :: (val ++ '"' :: '>' :: rest)) off out
            depth) =
        (St.mk ('>' :: rest) (off + (name.length + val.length + 3))
          (out ++ (name ++ '=' :: '"' :: (val ++ ['"']))) depth, none)) ∧
    (∀ (name val rest : List Char) (off : Nat) (out : List Char)
      (depth : Int) (fuel : Nat), name ≠ [] →
      (∀ c ∈ name, isLegalHTMLAttributeNameRune c = true ∧
        isASCIIWhitespace c = false) →
      escapedOnly apostrophe apostrophe val = true →
      val.getLast? ≠ some '\\' →
      name.length + val.length + 8 ≤ fuel →
      handleHTMLAttributes fuel
          (St.mk (name ++ '=' :: apostrophe ::
            (val ++ apostrophe :: '>' :: rest)) off out depth) =
        (St.mk ('>' :: rest) (off + (name.length + val.length + 3))
          (out ++ (name ++ '=' :: apostrophe :: (val ++ [apostrophe])))
          depth, none)) ∧
    (∀ (name val rest : List Char) (off : Nat) (out : List Char)
      (depth : Int) (fuel : Nat), name ≠ [] →
      (∀ c ∈ name, isLegalHTMLAttributeNameRune c = true ∧
        isASCIIWhitespace c = false) →
      (∀ c ∈ val, isLegalHTMLAttributeValueUnquoted c = true) → val ≠ [] →
      name.length + val.length + 8 ≤ fuel →
      handleHTMLAttributes fuel
          (St.mk (name ++ '=' :: (val ++ '>' :: rest)) off out depth) =
        (St.mk ('>' :: rest) (off + (name.length + val.length + 1))
          (out ++ (name ++ '=' :: val)) depth, none)) :=
  ⟨handleHTMLAttributes_doubleQuoted, handleHTMLAttributes_singleQuoted,
    handleHTMLAttributes_unquoted⟩

/-- Witness for C4: the attribute `title="Nick \"Goose\" Bradshaw"` — a
double-quoted value holding two backslash-escaped interior double quotes
(and an apostrophe-free name), copied through untouched. -/
theorem handleHTMLAttributes_values_verbatim_witness :
    handleHTMLAttributes 64
        (St.mk "title=\"Nick \\\"Goose\\\" Bradshaw\">".toList 3
          "<a ".toList 0) =
      (St.mk ['>'] 34 "<a title=\"Nick \\\"Goose\\\" Bradshaw\"".toList 0,
        none) :=
  handleHTMLAttributes_values_verbatim.1 "title".toList
    "Nick \\\"Goose\\\" Bradshaw".toList [] 3 "<a ".toList 0 64
    (by decide) (by decide) (by decide) (by decide) (by decide)

/-! ## C9: machinery for the identity theorem on quote-free input -/

/-- `AdvanceBy` over an exact prefix copies it verbatim. -/
theorem advanceBy_exact (pre : List Char) :
    ∀ (tail : List Char) (off : Nat) (out : List Char) (depth : Int),
      AdvanceBy (St.mk (pre ++ tail) off out depth) pre.length =
        (St.mk tail (off + pre.length) (out ++ pre) depth, none) := by
  induction pre with
  | nil =>
    intro tail off out depth
    simp [AdvanceBy]
  | cons p pre ih =>
    intro tail off out depth
    simp only [List.cons_append, List.length_cons, AdvanceBy, readRune_mk_cons,
      writeRune_mk]
    rw [ih tail (off + 1) (out ++ [p]) depth]
    simp only [Prod.mk.injEq, St.mk.injEq, List.append_assoc, List.cons_append,
      List.nil_append, and_true, true_and]
    omega

/-- `AdvanceUntil` copies verbatim: it stops with the needle just ahead, or
consumes the whole input and reports `io.EOF`. -/
theorem advanceUntil_total (l : List Char) :
    ∀ (needle : List Char) (off : Nat) (out : List Char) (depth : Int)
      (fuel : Nat),
      l.length + 1 ≤ fuel →
      (∃ k, k ≤ l.length ∧
        AdvanceUntil fuel (St.mk l off out depth) needle =
          (St.mk (l.drop k) (off + k) (out ++ l.take k) depth, none) ∧
        PeekEquals (St.mk (l.drop k) (off + k) (out ++ l.take k) depth)
          needle = true) ∨
      AdvanceUntil fuel (St.mk l off out depth) needle =
        (St.mk [] (off + l.length) (out ++ l) depth, some Err.eof) := by
  induction l with
  | nil =>
    intro needle off out depth fuel hfuel
    obtain ⟨f, rfl⟩ : ∃ f, fuel = f + 1 := ⟨fuel - 1, by omega⟩
    cases hpe : PeekEquals (St.mk [] off out depth) needle with
    | true =>
      left
      exact ⟨0, by simp, by simp [AdvanceUntil, hpe], by simpa using hpe⟩
    | false =>
      right
      simp [AdvanceUntil, hpe]
  | cons c t ih =>
    intro needle off out depth fuel hfuel
    obtain ⟨f, rfl⟩ : ∃ f, fuel = f + 1 := ⟨fuel - 1, by omega⟩
    cases hpe : PeekEquals (St.mk (c :: t) off out depth) needle with
    | true =>
      left
      exact ⟨0, by simp, by simp [AdvanceUntil, hpe], by simpa using hpe⟩
    | false =>
      have hstep : AdvanceUntil (f + 1) (St.mk (c :: t) off out depth) needle =
          AdvanceUntil f (St.mk t (off + 1) (out ++ [c]) depth) needle := by
        simp [AdvanceUntil, hpe]
      rcases ih needle (off + 1) (out ++ [c]) depth f
          (by simp only [List.length_cons] at hfuel; omega) with
        ⟨k, hk, heq, hpk⟩ | heq
      · left
        refine ⟨k + 1, ?_, ?_, ?_⟩
        · simp only [List.length_cons]
          omega
        · rw [hstep, heq]
          simp only [Prod.mk.injEq, St.mk.injEq, List.drop_succ_cons,
            List.take_succ_cons, List.append_assoc, List.singleton_append,
            and_true, true_and]
          omega
        · simpa [List.append_assoc] using hpk
      · right
        rw [hstep, heq]
        simp only [Prod.mk.injEq, St.mk.injEq, List.length_cons,
          List.append_assoc, List.singleton_append, and_true, true_and]
        omega

/-- `AdvanceThrough` copies verbatim: it consumes through the needle, or
consumes everything and reports `io.EOF`. -/
theorem advanceThrough_total (l needle : List Char) (off : Nat)
    (out : List Char) (depth : Int) (fuel : Nat)
    (hne : needle ≠ []) (hfuel : l.length + 1 ≤ fuel) :
    (∃ k, 1 ≤ k ∧ k ≤ l.length ∧
      AdvanceThrough fuel (St.mk l off out depth) needle =
        (St.mk (l.drop k) (off + k) (out ++ l.take k) depth, none)) ∨
    AdvanceThrough fuel (St.mk l off out depth) needle =
      (St.mk [] (off + l.length) (out ++ l) depth, some Err.eof) := by
  rcases advanceUntil_total l needle off out depth fuel hfuel with
    ⟨k, hk, heq, hpk⟩ | heq
  · left
    simp only [PeekEquals, peekRune_mk] at hpk
    obtain ⟨tail₂, htail⟩ := List.isPrefixOf_iff_prefix.mp hpk
    have hdk : l.drop k = needle ++ tail₂ := htail.symm
    refine ⟨k + needle.length, ?_, ?_, ?_⟩
    · cases needle with
      | nil => exact absurd rfl hne
      | cons a b => simp; omega
    · have : needle.length ≤ (l.drop k).length := by
        rw [hdk]
        simp
      simp only [List.length_drop] at this
      omega
    · unfold AdvanceThrough
      rw [hdk] at heq
      simp only [heq]
      rw [advanceBy_exact needle tail₂ (off + k) (out ++ l.take k) depth]
      have h1 : l.drop (k + needle.length) = tail₂ := by
        rw [← List.drop_drop, hdk]
        simp [Nat.add_comm]
      have h2 : l.take (k + needle.length) = l.take k ++ needle := by
        rw [List.take_add, hdk]
        simp [List.take_left]
      rw [h1, h2]
      simp only [Prod.mk.injEq, St.mk.injEq, List.append_assoc, and_true,
        true_and]
      omega
  · right
    unfold AdvanceThrough
    simp only [heq]

/-- `inSpanEndingWithSingleUnescapedRune` copies verbatim: it consumes
through some closing sentinel, or consumes everything and reports
`io.EOF`. -/
theorem inSpan_total (l : List Char) :
    ∀ (sentinel : Char) (off : Nat) (out : List Char) (depth : Int)
      (fuel : Nat),
      out ≠ [] → l.length + 1 ≤ fuel →
      (∃ k, 1 ≤ k ∧ k ≤ l.length ∧
        inSpanEndingWithSingleUnescapedRune fuel (St.mk l off out depth)
            sentinel =
          (St.mk (l.drop k) (off + k) (out ++ l.take k) depth, none)) ∨
      inSpanEndingWithSingleUnescapedRune fuel (St.mk l off out depth)
          sentinel =
        (St.mk [] (off + l.length) (out ++ l) depth, some Err.eof) := by
  induction l with
  | nil =>
    intro sentinel off out depth fuel hout hfuel
    obtain ⟨f, rfl⟩ : ∃ f, fuel = f + 1 := ⟨fuel - 1, by omega⟩
    right
    simp [inSpanEndingWithSingleUnescapedRune]
  | cons c t ih =>
    intro sentinel off out depth fuel hout hfuel
    obtain ⟨f, rfl⟩ : ∃ f, fuel = f + 1 := ⟨fuel - 1, by omega⟩
    obtain ⟨prev, hprev⟩ := getLast?_some_of_ne_nil out hout
    cases hcond : (c == sentinel && prev != '\\') with
    | true =>
      left
      have hc : c = sentinel := eq_of_beq ((Bool.and_eq_true _ _).mp hcond).1
      have hbne : (prev != '\\') = true := ((Bool.and_eq_true _ _).mp hcond).2
      subst hc
      refine ⟨1, by omega, by simp, ?_⟩
      simp [inSpanEndingWithSingleUnescapedRune, hprev, hbne,
        getLast?_append_singleton]
    | false =>
      have hstep : inSpanEndingWithSingleUnescapedRune (f + 1)
          (St.mk (c :: t) off out depth) sentinel =
          inSpanEndingWithSingleUnescapedRune f
            (St.mk t (off + 1) (out ++ [c]) depth) sentinel := by
        simp [inSpanEndingWithSingleUnescapedRune, hprev, hcond]
      rcases ih sentinel (off + 1) (out ++ [c]) depth f (by simp)
          (by simp only [List.length_cons] at hfuel; omega) with
        ⟨k, hk1, hk, heq⟩ | heq
      · left
        refine ⟨k + 1, by omega, ?_, ?_⟩
        · simp only [List.length_cons]
          omega
        · rw [hstep, heq]
          simp only [Prod.mk.injEq, St.mk.injEq, List.drop_succ_cons,
            List.take_succ_cons, List.append_assoc, List.singleton_append,
            and_true, true_and]
          omega
      · right
        rw [hstep, heq]
        simp only [Prod.mk.injEq, St.mk.injEq, List.length_cons,
          List.append_assoc, List.singleton_append, and_true, true_and]
        omega

/-- One dispatch through the `whatDo` table on quote-free input copies a
nonempty prefix verbatim, or copies everything and reports `io.EOF`. -/
theorem dispatch_copies (m : Nat) (ihDQ : InDQCopies m) (p : Char)
    (t : List Char) (off : Nat) (out : List Char) (depth : Int)
    (fuelD : Nat) (hfree : ∀ c ∈ p :: t, quoteFree c) (hlen : t.length ≤ m)
    (hwd : whatDoQ p = true) (hfuel : 3 * (p :: t).length ≤ fuelD) :
    (∃ k, 1 ≤ k ∧ k ≤ (p :: t).length ∧
      dispatchStep fuelD p (St.mk (p :: t) off out depth) =
        (St.mk ((p :: t).drop k) (off + k) (out ++ (p :: t).take k) depth,
          none)) ∨
    dispatchStep fuelD p (St.mk (p :: t) off out depth) =
      (St.mk [] (off + (p :: t).length) (out ++ p :: t) depth,
        some Err.eof) := by
  obtain ⟨hq1, hq2, hq3, hq4⟩ := hfree p (List.mem_cons_self p t)
  simp only [List.length_cons] at hfuel
  obtain ⟨f, rfl⟩ : ∃ f, fuelD = f + 1 := ⟨fuelD - 1, by omega⟩
  simp only [whatDoQ, Bool.or_eq_true, beq_iff_eq] at hwd
  rcases hwd with (((((((rfl | rfl) | rfl) | rfl) | rfl) | rfl) | rfl) | rfl)
  · -- backslash
    cases t with
    | nil =>
      right
      simp [dispatchStep, atBackslash]
    | cons c t' =>
      left
      refine ⟨2, by omega, by simp, ?_⟩
      simp [dispatchStep, atBackslash]
  · exact absurd rfl hq1
  · -- opening curly double quote: enters inDoubleQuotes
    obtain ⟨g, rfl⟩ : ∃ g, f = g + 1 := ⟨f - 1, by omega⟩
    have hstep : dispatchStep (g + 1 + 1) '“'
        (St.mk ('“' :: t) off out depth) =
        inDoubleQuotes g (St.mk t (off + 1) (out ++ ['“']) depth) := by
      simp [dispatchStep, atDoubleQuote]
    rcases ihDQ t (off + 1) (out ++ ['“']) depth g
        (fun c hc => hfree c (List.mem_cons_of_mem _ hc)) hlen
        (by omega) with
      ⟨k, hk1, hk, heq⟩ | heq
    · left
      refine ⟨k + 1, by omega, by simp only [List.length_cons]; omega, ?_⟩
      rw [hstep, heq]
      simp only [Prod.mk.injEq, St.mk.injEq, List.drop_succ_cons,
        List.take_succ_cons, List.append_assoc, List.singleton_append,
        and_true, true_and]
      omega
    · right
      rw [hstep, heq]
      simp only [Prod.mk.injEq, St.mk.injEq, List.length_cons,
        List.append_assoc, List.singleton_append, and_true, true_and]
      omega
  · exact absurd rfl hq2
  · exact absurd rfl hq3
  · -- hyphen: possibly YAML front matter, always verbatim
    have hstep : ∀ s', dispatchStep (f + 1) '-' s' = atHyphen f s' := by
      intro s'
      simp only [dispatchStep]
      rw [if_neg (by decide), if_neg (by decide), if_neg (by decide),
        if_pos (by decide)]
    rw [hstep]
    cases hyam : (decide ((St.mk t (off + 1) out depth).off = 1) &&
        PeekEquals (St.mk t (off + 1) out depth) "--".toList) with
    | true =>
      have hat : atHyphen f (St.mk ('-' :: t) off out depth) =
          inYAMLFrontMatter f (St.mk t (off + 1) (out ++ ['-']) depth) := by
        simp only [atHyphen, readRune_mk_cons]
        rw [if_neg (by simp)]
        simp only [St.off] at hyam
        rw [if_pos (by simpa using hyam)]
        rfl
      rw [hat]
      unfold inYAMLFrontMatter
      rcases advanceThrough_total t "\n---\n".toList (off + 1) (out ++ ['-'])
          depth f (by decide)
          (by omega) with
        ⟨k, hk1, hk, heq⟩ | heq
      · left
        refine ⟨k + 1, by omega, by simp only [List.length_cons]; omega, ?_⟩
        rw [heq]
        simp only [Prod.mk.injEq, St.mk.injEq, List.drop_succ_cons,
          List.take_succ_cons, List.append_assoc, List.singleton_append,
          and_true, true_and]
        omega
      · right
        rw [heq]
        simp only [Prod.mk.injEq, St.mk.injEq, List.length_cons,
          List.append_assoc, List.singleton_append, and_true, true_and]
        omega
    | false =>
      left
      refine ⟨1, by omega, by simp, ?_⟩
      simp only [atHyphen, readRune_mk_cons]
      rw [if_neg (by simp)]
      simp only [St.off] at hyam
      rw [if_neg (by simpa using hyam)]
      simp
  · -- backtick: always the single-backtick code span (the fence guard is
    -- constantly false)
    have hprevany := previousRuneMatchesAny_false
      (St.mk t (off + 1) out depth) ['\n'] (by decide)
    have hstep : dispatchStep (f + 1) backtick
        (St.mk (backtick :: t) off out depth) =
        inSpanEndingWithSingleUnescapedRune f
          (St.mk t (off + 1) (out ++ [backtick]) depth) backtick := by
      simp only [dispatchStep]
      rw [if_neg (by decide), if_neg (by decide), if_neg (by decide),
        if_neg (by decide), if_pos (by decide)]
      simp only [atBacktick, readRune_mk_cons]
      rw [if_neg (by simp)]
      rw [if_neg (by simp [hprevany])]
      rfl
    rw [hstep]
    rcases inSpan_total t backtick (off + 1) (out ++ [backtick]) depth f
        (by simp) (by omega) with
      ⟨k, hk1, hk, heq⟩ | heq
    · left
      refine ⟨k + 1, by omega, by simp only [List.length_cons]; omega, ?_⟩
      rw [heq]
      simp only [Prod.mk.injEq, St.mk.injEq, List.drop_succ_cons,
        List.take_succ_cons, List.append_assoc, List.singleton_append,
        and_true, true_and]
      omega
    · right
      rw [heq]
      simp only [Prod.mk.injEq, St.mk.injEq, List.length_cons,
        List.append_assoc, List.singleton_append, and_true, true_and]
      omega
  · exact absurd rfl hq4

/-- Main induction: on quote-free input (no `"`, `'`, `‘`, `<`), the
`initial` loop copies everything verbatim and ends with `io.EOF`, and
`inDoubleQuotes` copies verbatim as well. -/
theorem copies_induction : ∀ n : Nat, InitialCopies n ∧ InDQCopies n := by
  intro n
  induction n with
  | zero =>
    constructor
    · intro l off out depth fuel _ hlen hfuel
      obtain ⟨f, rfl⟩ : ∃ f, fuel = f + 1 := ⟨fuel - 1, by omega⟩
      obtain rfl : l = [] := List.length_eq_zero.mp (by omega)
      simp [initial]
    · intro l off out depth fuel _ hlen hfuel
      obtain ⟨f, rfl⟩ : ∃ f, fuel = f + 1 := ⟨fuel - 1, by omega⟩
      obtain rfl : l = [] := List.length_eq_zero.mp (by omega)
      right
      simp [inDoubleQuotes]
  | succ n ih =>
    constructor
    · -- the initial loop
      intro l off out depth fuel hfree hlen hfuel
      obtain ⟨f, rfl⟩ : ∃ f, fuel = f + 1 := ⟨fuel - 1, by omega⟩
      cases l with
      | nil => simp [initial]
      | cons p t =>
        simp only [List.length_cons] at hlen hfuel
        cases hwq : whatDoQ p with
        | false =>
          have hstep : initial (f + 1) (St.mk (p :: t) off out depth) =
              initial f (St.mk t (off + 1) (out ++ [p]) depth) := by
            simp [initial, hwq]
          rw [hstep, ih.1 t (off + 1) (out ++ [p]) depth f
            (fun c hc => hfree c (List.mem_cons_of_mem _ hc)) (by omega)
            (by omega)]
          simp only [Prod.mk.injEq, St.mk.injEq, List.length_cons,
            List.append_assoc, List.singleton_append, and_true, true_and]
          omega
        | true =>
          rcases dispatch_copies n ih.2 p t off out depth f hfree (by omega)
              hwq (by simp only [List.length_cons]; omega) with
            ⟨k, hk1, hk, heq⟩ | heq
          · simp only [List.length_cons] at hk
            have hstep : initial (f + 1) (St.mk (p :: t) off out depth) =
                initial f (St.mk ((p :: t).drop k) (off + k)
                  (out ++ (p :: t).take k) depth) := by
              simp only [initial, peekRune_mk, List.head?_cons, hwq, if_true,
                heq]
            rw [hstep, ih.1 ((p :: t).drop k) (off + k)
              (out ++ (p :: t).take k) depth f
              (fun c hc => hfree c (List.drop_subset _ _ hc))
              (by simp only [List.length_drop, List.length_cons]; omega)
              (by simp only [List.length_drop, List.length_cons]; omega)]
            have h1 : off + k + ((p :: t).drop k).length =
                off + (p :: t).length := by
              simp only [List.length_drop, List.length_cons]
              omega
            have h2 : out ++ (p :: t).take k ++ (p :: t).drop k =
                out ++ p :: t := by
              rw [List.append_assoc, List.take_append_drop]
            rw [h1, h2]
          · have hstep : initial (f + 1) (St.mk (p :: t) off out depth) =
                (St.mk [] (off + (p :: t).length) (out ++ p :: t) depth,
                  Err.eof) := by
              simp only [initial, peekRune_mk, List.head?_cons, hwq, if_true,
                heq]
            rw [hstep]
    · -- the inDoubleQuotes loop
      intro l off out depth fuel hfree hlen hfuel
      obtain ⟨f, rfl⟩ : ∃ f, fuel = f + 1 := ⟨fuel - 1, by omega⟩
      cases l with
      | nil =>
        right
        simp [inDoubleQuotes]
      | cons p t =>
        simp only [List.length_cons] at hlen hfuel
        cases hterm : (p == '"' || p == '”') with
        | true =>
          left
          have hp : p = '”' := by
            rcases Bool.or_eq_true _ _ |>.mp hterm with h | h
            · exact absurd (eq_of_beq h) (hfree p (List.mem_cons_self p t)).1
            · exact eq_of_beq h
          subst hp
          refine ⟨1, by omega, by simp, ?_⟩
          simp [inDoubleQuotes]
        | false =>
          cases hwq : whatDoQ p with
          | false =>
            have hstep : inDoubleQuotes (f + 1)
                (St.mk (p :: t) off out depth) =
                inDoubleQuotes f (St.mk t (off + 1) (out ++ [p]) depth) := by
              simp [inDoubleQuotes, hterm, hwq]
            rcases ih.2 t (off + 1) (out ++ [p]) depth f
                (fun c hc => hfree c (List.mem_cons_of_mem _ hc)) (by omega)
                (by omega) with ⟨k, hk1, hk, heq⟩ | heq
            · left
              refine ⟨k + 1, by omega,
                by simp only [List.length_cons]; omega, ?_⟩
              rw [hstep, heq]
              simp only [Prod.mk.injEq, St.mk.injEq, List.drop_succ_cons,
                List.take_succ_cons, List.append_assoc, List.singleton_append,
                and_true, true_and]
              omega
            · right
              rw [hstep, heq]
              simp only [Prod.mk.injEq, St.mk.injEq, List.length_cons,
                List.append_assoc, List.singleton_append, and_true, true_and]
              omega
          | true =>
            rcases dispatch_copies n ih.2 p t off out depth f hfree (by omega)
                hwq (by simp only [List.length_cons]; omega) with
              ⟨k, hk1, hk, heq⟩ | heq
            · simp only [List.length_cons] at hk
              have hstep : inDoubleQuotes (f + 1)
                  (St.mk (p :: t) off out depth) =
                  inDoubleQuotes f (St.mk ((p :: t).drop k) (off + k)
                    (out ++ (p :: t).take k) depth) := by
                simp only [inDoubleQuotes, peekRune_mk, List.head?_cons,
                  hterm, Bool.false_eq_true, if_false, hwq, if_true, heq]
              rcases ih.2 ((p :: t).drop k) (off + k)
                  (out ++ (p :: t).take k) depth f
                  (fun c hc => hfree c (List.drop_subset _ _ hc))
                  (by simp only [List.length_drop, List.length_cons]; omega)
                  (by simp only [List.length_drop, List.length_cons]; omega)
                  with ⟨k₂, hk₂1, hk₂, heq₂⟩ | heq₂
              · simp only [List.length_drop, List.length_cons] at hk₂
                left
                refine ⟨k + k₂, by omega,
                  by simp only [List.length_cons]; omega, ?_⟩
                have h1 : ((p :: t).drop k).drop k₂ = (p :: t).drop (k + k₂) :=
                  List.drop_drop k₂ k (p :: t)
                have h2 : off + k + k₂ = off + (k + k₂) := by omega
                have h3 : out ++ (p :: t).take k ++
                    ((p :: t).drop k).take k₂ =
                    out ++ (p :: t).take (k + k₂) := by
                  rw [List.append_assoc, ← List.take_add]
                rw [hstep, heq₂, h1, h2, h3]
              · right
                rw [hstep, heq₂]
                have h1 : off + k + ((p :: t).drop k).length =
                    off + (p :: t).length := by
                  simp only [List.length_drop, List.length_cons]
                  omega
                have h2 : out ++ (p :: t).take k ++ (p :: t).drop k =
                    out ++ p :: t := by
                  rw [List.append_assoc, List.take_append_drop]
                rw [h1, h2]
            · right
              have hstep : inDoubleQuotes (f + 1)
                  (St.mk (p :: t) off out depth) =
                  (St.mk [] (off + (p :: t).length) (out ++ p :: t) depth,
                    some Err.eof) := by
                simp only [inDoubleQuotes, peekRune_mk, List.head?_cons,
                  hterm, Bool.false_eq_true, if_false, hwq, if_true, heq]
              rw [hstep]

/-- C9 (amended).  For every input containing no straight quote marks, no
curly opening single quote `‘`, and no `<`, the transform is the identity:
`Educate` succeeds and the output equals the input exactly. -/
theorem educate_identity_on_quote_free (input : List Char)
    (h : ∀ c ∈ input, quoteFree c) :
    Educate input = (utf8Len input, input, none) := by
  have hrun := (copies_induction input.length).1 input 0 [] 0
    (defaultFuel input) h le_rfl (by unfold defaultFuel; omega)
  unfold Educate runInitial
  rw [hrun]
  simp

/-- Witness for the amended C9: an input exercising a backslash escape, a
backtick code span, curly double quotes and hyphens, returned unchanged. -/
theorem educate_identity_on_quote_free_witness :
    Educate "a-`b`“c”\\d".toList =
      (utf8Len "a-`b`“c”\\d".toList, "a-`b`“c”\\d".toList, none) :=
  educate_identity_on_quote_free "a-`b`“c”\\d".toList (by decide)

/-! ## C3/C6: the triple-backtick fence branch is dead code -/

/-! ## C5: the `>`/`)` lookbehind branch is dead code -/

/-- C5 (failing-input evaluation).  The `'` after `)` should, per the spec,
be left unchanged with a diagnostic and no span entered; because
`previousRuneMatchesAny` is constantly false the program instead writes
`‘` and enters a single-quote span. -/
theorem educate_apostrophe_after_paren :
    Educate "()'a'".toList =
      (utf8Len "()‘a’".toList, "()‘a’".toList, none) ∧
    "()‘a’".toList ≠ "()'a'".toList :=
  ⟨by decide, by decide⟩

/-! ## C8: the code-element depth counter is never decremented -/

/-- C8 (failing-input evaluation).  After processing `<code>a</code> b`
the `codeElementsEntered` counter is still 1: the end tag of the matching
`</code>` is consumed inside `inCodeElement` without touching the counter,
and `inHTMLEndTagName` compares `code` against a tail that still starts
with `/`, so its decrement is unreachable. -/
theorem code_depth_not_decremented :
    (runInitial "<code>a</code> b".toList).1.depth = 1 ∧
    (runInitial "<code>a</code> b".toList).2 = Err.eof :=
  ⟨by decide, by decide⟩

/-! ## C7/C10: the error contract of Educate -/

/-- C7 (counterexample).  Input exhausted inside an unterminated
double-quote span is NOT surfaced as an error distinct from normal
completion: `Educate` reports success, with the full output. -/
theorem educate_unterminated_span_reports_success :
    Educate "\"abc".toList = (6, "“abc".toList, none) := by decide

/-- C7 (amended).  When the run ends with exhausted input — at any parse
depth, including inside an unterminated span — `Educate` reports normal
completion and the caller receives the complete accumulated output, not an
error with partial output. -/
theorem educate_eof_full_output (input : List Char) (s : St)
    (h : runInitial input = (s, Err.eof)) :
    Educate input = (utf8Len s.out, s.out, none) := by
  simp [Educate, h]

/-- Witness for the amended C7 at the unterminated-span input `"abc`. -/
theorem educate_eof_full_output_witness :
    Educate "\"abc".toList =
      (utf8Len "“abc".toList, "“abc".toList, none) :=
  educate_eof_full_output "\"abc".toList
    (St.mk [] 4 "“abc".toList 0) (by decide)

/-- C10.  `Educate` never returns partial output together with an error:
an `io.EOF` outcome (any parse depth) writes the whole accumulated buffer
and reports success; any other error yields `written = 0` and nothing
written to the destination. -/
theorem educate_contract (input : List Char) (s : St) (e : Err)
    (h : runInitial input = (s, e)) :
    (e = Err.eof → Educate input = (utf8Len s.out, s.out, none)) ∧
    (e ≠ Err.eof → Educate input = (0, [], some e)) := by
  constructor
  · intro he
    subst he
    simp [Educate, h]
  · intro hne
    unfold Educate
    rw [h]
    cases e with
    | eof => exact absurd rfl hne
    | outOfFuel => rfl
    | badRune => rfl
    | postcondition => rfl
    | weirdAttributeValueRune => rfl
    | fatal => rfl
    | panicked => rfl

/-- Witness for C10 at a concrete erroring input: `<a b=>` hits the
"weird attribute value rune" error and nothing is written. -/
theorem educate_contract_witness :
    Educate "<a b=>".toList = (0, [], some Err.weirdAttributeValueRune) :=
  (educate_contract "<a b=>".toList
    (St.mk ['>'] 5 "<a b=".toList 0) Err.weirdAttributeValueRune
    (by decide)).2 (by decide)

/-! ## C9: identity on quote-free input -/

/-- C9 (counterexample).  Two inputs without any straight quote mark whose
output differs from the input: a curly `‘` right after a letter is
rewritten to `’`, and `<a b=>` aborts with an error so nothing at all is
written to the destination. -/
theorem educate_not_identity_on_quote_free_input :
    (Educate "a‘".toList).2.1 ≠ "a‘".toList ∧
    (Educate "<a b=>".toList).2.1 ≠ "<a b=>".toList :=
  ⟨by decide, by decide⟩

/-! ## Single-step lemmas for driving concrete runs of `initial` -/

theorem initial_step_eof (off : Nat) (out : List Char) (depth : Int)
    (f : Nat) :
    initial (f + 1) (St.mk [] off out depth) =
      (St.mk [] off out depth, Err.eof) := by
  simp [initial]

theorem initial_step_verbatim (p : Char) (t : List Char) (off : Nat)
    (out : List Char) (depth : Int) (f : Nat) (h : whatDoQ p = false) :
    initial (f + 1) (St.mk (p :: t) off out depth) =
      initial f (St.mk t (off + 1) (out ++ [p]) depth) := by
  simp [initial, h]

theorem initial_step_dispatch_ok (p : Char) (t : List Char) (off : Nat)
    (out : List Char) (depth : Int) (f : Nat) (s₁ : St)
    (h : whatDoQ p = true)
    (hd : dispatchStep f p (St.mk (p :: t) off out depth) = (s₁, none)) :
    initial (f + 1) (St.mk (p :: t) off out depth) = initial f s₁ := by
  simp [initial, h, hd]

theorem initial_step_dispatch_err (p : Char) (t : List Char) (off : Nat)
    (out : List Char) (depth : Int) (f : Nat) (s₁ : St) (e : Err)
    (h : whatDoQ p = true)
    (hd : dispatchStep f p (St.mk (p :: t) off out depth) = (s₁, some e)) :
    initial (f + 1) (St.mk (p :: t) off out depth) = (s₁, e) := by
  simp [initial, h, hd]

theorem dispatchStep_backtick (f : Nat) (s : St) :
    dispatchStep (f + 1) backtick s = atBacktick f s := by
  simp only [dispatchStep]
  rw [if_neg (by decide), if_neg (by decide), if_neg (by decide),
    if_neg (by decide), if_pos (by decide)]

theorem dispatchStep_doubleQuote (c : Char) (f : Nat) (s : St)
    (hc : c = '"' ∨ c = '“') :
    dispatchStep (f + 1) c s = atDoubleQuote f s := by
  rcases hc with rfl | rfl <;>
    · simp only [dispatchStep]
      rw [if_neg (by decide), if_pos (by decide)]

theorem dispatchStep_singleQuote (q : Char) (f : Nat) (s : St)
    (hq : q = apostrophe ∨ q = '‘') :
    dispatchStep (f + 1) q s = atSingleQuote f s := by
  rcases hq with rfl | rfl <;>
    · simp only [dispatchStep]
      rw [if_neg (by decide), if_neg (by decide), if_pos (by decide)]

/-- Regardless of the lookbehind (even a fresh newline in the output) and
of the two backticks ahead, `atBacktick` always takes the single-backtick
code-span branch: its fence guard calls the constantly false
`previousRuneMatchesAny`. -/
theorem atBacktick_single_span (t : List Char) (off : Nat) (out : List Char)
    (depth : Int) (fuel : Nat) :
    atBacktick fuel (St.mk (backtick :: t) off out depth) =
      inSingleBacktickCodeSpan fuel
        (St.mk t (off + 1) (out ++ [backtick]) depth) := by
  have hprevany := previousRuneMatchesAny_false
    (St.mk t (off + 1) out depth) ['\n'] (by decide)
  simp only [atBacktick, readRune_mk_cons]
  rw [if_neg (by simp), if_neg (by simp [hprevany])]
  rfl

theorem atDoubleQuote_enter (c : Char) (t : List Char) (off : Nat)
    (out : List Char) (depth : Int) (f : Nat) (hc : c = '"' ∨ c = '“') :
    atDoubleQuote (f + 1) (St.mk (c :: t) off out depth) =
      inDoubleQuotes f (St.mk t (off + 1) (out ++ ['“']) depth) := by
  have hcq : (c == '"' || c == '“') = true := by
    rcases hc with rfl | rfl <;> decide
  simp [atDoubleQuote, hcq]

theorem atSingleQuote_enter (q : Char) (t : List Char) (off : Nat)
    (out : List Char) (depth : Int) (f : Nat)
    (hq : q = apostrophe ∨ q = '‘')
    (hnl : previousRuneMatches (St.mk t (off + 1) out depth)
      unicodeIsLetter = false) :
    atSingleQuote (f + 1) (St.mk (q :: t) off out depth) =
      inSingleQuotes f (St.mk t (off + 1) (out ++ ['‘']) depth) := by
  have hqq : (q == apostrophe || q == '‘') = true := by
    rcases hq with rfl | rfl <;> decide
  have hprevany := previousRuneMatchesAny_false
    (St.mk t (off + 1) out depth) ['>', ')'] (by decide)
  simp [atSingleQuote, hqq, hnl, hprevany]

/-- `inSpanEndingWithSingleUnescapedRune` when the sentinel never appears:
the whole remainder is copied verbatim and `io.EOF` is reported. -/
theorem inSpan_eof (l : List Char) :
    ∀ (sentinel : Char) (off : Nat) (out : List Char) (depth : Int)
      (fuel : Nat),
      out ≠ [] → (∀ c ∈ l, c ≠ sentinel) → l.length + 1 ≤ fuel →
      inSpanEndingWithSingleUnescapedRune fuel (St.mk l off out depth)
          sentinel =
        (St.mk [] (off + l.length) (out ++ l) depth, some Err.eof) := by
  induction l with
  | nil =>
    intro sentinel off out depth fuel _ _ hfuel
    obtain ⟨f, rfl⟩ : ∃ f, fuel = f + 1 := ⟨fuel - 1, by omega⟩
    simp [inSpanEndingWithSingleUnescapedRune]
  | cons c t ih =>
    intro sentinel off out depth fuel hout hl hfuel
    obtain ⟨f, rfl⟩ : ∃ f, fuel = f + 1 := ⟨fuel - 1, by omega⟩
    obtain ⟨prev, hprev⟩ := getLast?_some_of_ne_nil out hout
    have hcs : (c == sentinel) = false :=
      beq_eq_false_iff_ne.mpr (hl c (List.mem_cons_self c t))
    simp only [inSpanEndingWithSingleUnescapedRune, readRune_mk_cons,
      previousRune_mk, hprev, writeRune_mk, hcs, Bool.false_and,
      Bool.false_eq_true, if_false]
    rw [ih sentinel (off + 1) (out ++ [c]) depth f (by simp)
      (fun x hx => hl x (List.mem_cons_of_mem c hx))
      (by simp only [List.length_cons] at hfuel; omega)]
    simp only [Prod.mk.injEq, St.mk.injEq, List.length_cons,
      List.append_assoc, List.singleton_append, and_true, true_and]
    omega

theorem previousRunesMatchAny_eq_none (s : St) (cands : List (List Char))
    (h : ∀ cand ∈ cands, previousRunesMatchOne s cand = false) :
    previousRunesMatchAny s cands = none := by
  induction cands with
  | nil => rfl
  | cons c cs ih =>
    simp only [previousRunesMatchAny, List.findSome?_cons]
    rw [if_neg (by simp [h c (List.mem_cons_self c cs)])]
    exact ih fun cand hc => h cand (List.mem_cons_of_mem c hc)

/-- `inSingleQuotes` over a stretch of ordinary characters: verbatim copy
until the closing `'`/`’`, which is written as `’` (provided no
contraction stem precedes it). -/
theorem inSingleQuotes_plain (mid : List Char) :
    ∀ (off : Nat) (out : List Char) (depth : Int) (d : Char)
      (rest : List Char) (fuel : Nat),
      (∀ c ∈ mid, whatDoQ c = false ∧ c ≠ '’') →
      (d = apostrophe ∨ d = '’') →
      (∀ cand ∈ ["can".toList, "you".toList, "don".toList],
        List.isSuffixOf cand (out ++ mid) = false) →
      mid.length + 1 ≤ fuel →
      inSingleQuotes fuel (St.mk (mid ++ d :: rest) off out depth) =
        (St.mk rest (off + (mid.length + 1)) (out ++ (mid ++ ['’'])) depth,
          none) := by
  induction mid with
  | nil =>
    intro off out depth d rest fuel _ hd hstems hfuel
    obtain ⟨f, rfl⟩ : ∃ f, fuel = f + 1 := ⟨fuel - 1, by omega⟩
    have hdq : (d == apostrophe || d == '’') = true := by
      rcases hd with rfl | rfl <;> decide
    have hmatch : previousRunesMatchAny
        (St.mk rest (off + 1) out depth)
        [['c', 'a', 'n'], ['y', 'o', 'u'], ['d', 'o', 'n']] = none := by
      refine previousRunesMatchAny_eq_none _ _ fun cand hc => ?_
      have := hstems cand hc
      simpa [previousRunesMatchOne] using this
    simp [inSingleQuotes, hdq, hmatch]
  | cons m mid ih =>
    intro off out depth d rest fuel hmid hd hstems hfuel
    obtain ⟨f, rfl⟩ : ∃ f, fuel = f + 1 := ⟨fuel - 1, by omega⟩
    obtain ⟨hw, hterm⟩ := hmid m (List.mem_cons_self m mid)
    have h1 : (m == apostrophe) = false := by
      refine beq_eq_false_iff_ne.mpr fun h => ?_
      subst h
      simp [whatDoQ, apostrophe] at hw
    have h2 : (m == '’') = false := beq_eq_false_iff_ne.mpr hterm
    simp only [List.cons_append, inSingleQuotes, peekRune_mk,
      List.head?_cons, h1, h2, Bool.or_self, Bool.false_eq_true, if_false,
      hw, readRune_mk_cons, writeRune_mk]
    rw [ih (off + 1) (out ++ [m]) depth d rest f
      (fun c hc => hmid c (List.mem_cons_of_mem m hc)) hd
      (by
        intro cand hcand
        have := hstems cand hcand
        simpa [List.append_assoc] using this)
      (by simp only [List.length_cons] at hfuel; omega)]
    simp only [Prod.mk.injEq, St.mk.injEq, List.append_assoc,
      List.cons_append, List.nil_append, List.length_cons, and_true,
      true_and]
    omega

/-! ## Composite steps: one full trigger dispatch of `initial` -/

/-- One backtick trigger inside `initial`: the (dead) fence guard is
skipped and a single-backtick code span swallows `val` and the next
backtick. -/
theorem initial_backtick_span_step (val rest' : List Char) (off : Nat)
    (out : List Char) (depth : Int) (f : Nat)
    (hval : ∀ c ∈ val, c ≠ backtick)
    (hlast : ((out ++ [backtick]) ++ val).getLast? ≠ some '\\')
    (hfuel : val.length + 2 ≤ f) :
    initial (f + 1)
        (St.mk (backtick :: (val ++ backtick :: rest')) off out depth) =
      initial f (St.mk rest' (off + (val.length + 2))
        (out ++ backtick :: (val ++ [backtick])) depth) := by
  obtain ⟨g, rfl⟩ : ∃ g, f = g + 1 := ⟨f - 1, by omega⟩
  refine initial_step_dispatch_ok backtick _ off out depth (g + 1) _
    (by decide) ?_
  rw [dispatchStep_backtick, atBacktick_single_span]
  show inSpanEndingWithSingleUnescapedRune g
    (St.mk (val ++ backtick :: rest') (off + 1) (out ++ [backtick]) depth)
    backtick = _
  rw [inSpan_copies val backtick rest' (off + 1) (out ++ [backtick]) depth
    g backtick (getLast?_append_singleton _ _)
    (escapedOnly_of_not_mem backtick val hval backtick) hlast (by omega)]
  simp only [Prod.mk.injEq, St.mk.injEq, List.append_assoc,
    List.singleton_append, List.cons_append, List.nil_append, and_true,
    true_and]
  omega

/-- A final backtick trigger whose span never closes: everything is copied
verbatim and the run ends with `io.EOF`. -/
theorem initial_backtick_span_eof_step (l : List Char) (off : Nat)
    (out : List Char) (depth : Int) (f : Nat)
    (hl : ∀ c ∈ l, c ≠ backtick) (hfuel : l.length + 2 ≤ f) :
    initial (f + 1) (St.mk (backtick :: l) off out depth) =
      (St.mk [] (off + (l.length + 1)) (out ++ backtick :: l) depth,
        Err.eof) := by
  obtain ⟨g, rfl⟩ : ∃ g, f = g + 1 := ⟨f - 1, by omega⟩
  refine initial_step_dispatch_err backtick _ off out depth (g + 1) _ _
    (by decide) ?_
  rw [dispatchStep_backtick, atBacktick_single_span]
  show inSpanEndingWithSingleUnescapedRune g
    (St.mk l (off + 1) (out ++ [backtick]) depth) backtick = _
  rw [inSpan_eof l backtick (off + 1) (out ++ [backtick]) depth g
    (by simp) hl (by omega)]
  simp only [Prod.mk.injEq, St.mk.injEq, List.append_assoc,
    List.singleton_append, List.cons_append, List.nil_append, and_true,
    true_and]
  omega

/-- One double-quote trigger inside `initial`: writes `“`, copies `mid`
verbatim, and writes `”` for the closing quote. -/
theorem initial_dquote_step (c : Char) (mid : List Char) (d : Char)
    (rest' : List Char) (off : Nat) (out : List Char) (depth : Int)
    (f : Nat) (hc : c = '"' ∨ c = '“') (hd : d = '"' ∨ d = '”')
    (hmid : ∀ x ∈ mid, whatDoQ x = false ∧ x ≠ '”')
    (hfuel : mid.length + 3 ≤ f) :
    initial (f + 1) (St.mk (c :: (mid ++ d :: rest')) off out depth) =
      initial f (St.mk rest' (off + (mid.length + 2))
        (out ++ '“' :: (mid ++ ['”'])) depth) := by
  obtain ⟨g, rfl⟩ : ∃ g, f = g + 1 := ⟨f - 1, by omega⟩
  obtain ⟨h, rfl⟩ : ∃ h, g = h + 1 := ⟨g - 1, by omega⟩
  have hwq : whatDoQ c = true := by
    rcases hc with rfl | rfl <;> decide
  refine initial_step_dispatch_ok c _ off out depth (h + 1 + 1) _ hwq ?_
  rw [dispatchStep_doubleQuote c (h + 1) _ hc, atDoubleQuote_enter c _ off
    out depth h hc]
  rw [inDoubleQuotes_plain mid (off + 1) (out ++ ['“']) depth d rest' h hmid
    hd (by omega)]
  simp only [Prod.mk.injEq, St.mk.injEq, List.append_assoc,
    List.singleton_append, List.cons_append, List.nil_append, and_true,
    true_and]
  omega

/-- One single-quote trigger inside `initial` whose lookbehind is not a
letter: writes `‘`, copies `mid` verbatim, and writes `’` for the closing
quote. -/
theorem initial_squote_step (q : Char) (mid : List Char) (d : Char)
    (rest' : List Char) (off : Nat) (out : List Char) (depth : Int)
    (f : Nat) (hq : q = apostrophe ∨ q = '‘') (hd : d = apostrophe ∨ d = '’')
    (hmid : ∀ x ∈ mid, whatDoQ x = false ∧ x ≠ '’')
    (hnl : previousRuneMatches (St.mk (mid ++ d :: rest') (off + 1) out
      depth) unicodeIsLetter = false)
    (hstems : ∀ cand ∈ ["can".toList, "you".toList, "don".toList],
      List.isSuffixOf cand ((out ++ ['‘']) ++ mid) = false)
    (hfuel : mid.length + 3 ≤ f) :
    initial (f + 1) (St.mk (q :: (mid ++ d :: rest')) off out depth) =
      initial f (St.mk rest' (off + (mid.length + 2))
        (out ++ '‘' :: (mid ++ ['’'])) depth) := by
  obtain ⟨g, rfl⟩ : ∃ g, f = g + 1 := ⟨f - 1, by omega⟩
  obtain ⟨h, rfl⟩ : ∃ h, g = h + 1 := ⟨g - 1, by omega⟩
  have hwq : whatDoQ q = true := by
    rcases hq with rfl | rfl <;> decide
  refine initial_step_dispatch_ok q _ off out depth (h + 1 + 1) _ hwq ?_
  rw [dispatchStep_singleQuote q (h + 1) _ hq, atSingleQuote_enter q _ off
    out depth h hq hnl]
  rw [inSingleQuotes_plain mid (off + 1) (out ++ ['‘']) depth d rest' h hmid
    hd hstems (by omega)]
  simp only [Prod.mk.injEq, St.mk.injEq, List.append_assoc,
    List.singleton_append, List.cons_append, List.nil_append, and_true,
    true_and]
  omega

/-- C3 (failing-input evaluation).  On this input the text between the two
matching triple-backtick fence lines contains a stray backtick followed by
a straight-quoted word; the program (whose fence branch is dead code, see
`atBacktick_single_span`) treats the backticks as single-backtick code
spans, so the quotes around `q` are curled to `“q”` instead of being
preserved byte-identically. -/
theorem educate_fence_content_changed :
    Educate "a\n```\nx ` y \"q\"\n```\nb".toList =
      (utf8Len "a\n```\nx ` y “q”\n```\nb".toList, "a\n```\nx ` y “q”\n```\nb".toList, none) ∧
    "a\n```\nx ` y “q”\n```\nb".toList ≠ "a\n```\nx ` y \"q\"\n```\nb".toList := by
  constructor
  case right => decide
  case left =>
    have h0 : runInitial "a\n```\nx ` y \"q\"\n```\nb".toList =
        (St.mk ([] : List Char) 21 "a\n```\nx ` y “q”\n```\nb".toList 0, Err.eof) := by
      unfold runInitial
      rw [show defaultFuel "a\n```\nx ` y \"q\"\n```\nb".toList = 184 from by decide]
      have e0 :
          initial 184 (St.mk "a\n```\nx ` y \"q\"\n```\nb".toList 0 ([] : List Char) 0) =
          initial 183 (St.mk "\n```\nx ` y \"q\"\n```\nb".toList 1 "a".toList 0) :=
        initial_step_verbatim 'a' "\n```\nx ` y \"q\"\n```\nb".toList 0 ([] : List Char) 0 183 (by decide)
      have e1 :
          initial 183 (St.mk "\n```\nx ` y \"q\"\n```\nb".toList 1 "a".toList 0) =
          initial 182 (St.mk "```\nx ` y \"q\"\n```\nb".toList 2 "a\n".toList 0) :=
        initial_step_verbatim '\n' "```\nx ` y \"q\"\n```\nb".toList 1 "a".toList 0 182 (by decide)
      have e2 :
          initial 182 (St.mk "```\nx ` y \"q\"\n```\nb".toList 2 "a\n".toList 0) =
          initial 181 (St.mk "`\nx ` y \"q\"\n```\nb".toList 4 "a\n``".toList 0) :=
        initial_backtick_span_step ([] : List Char) "`\nx ` y \"q\"\n```\nb".toList 2 "a\n".toList 0 181 (by decide) (by decide) (by decide)
      have e3 :
          initial 181 (St.mk "`\nx ` y \"q\"\n```\nb".toList 4 "a\n``".toList 0) =
          initial 180 (St.mk " y \"q\"\n```\nb".toList 9 "a\n```\nx `".toList 0) :=
        initial_backtick_span_step "\nx ".toList " y \"q\"\n```\nb".toList 4 "a\n``".toList 0 180 (by decide) (by decide) (by decide)
      have e4 :
          initial 180 (St.mk " y \"q\"\n```\nb".toList 9 "a\n```\nx `".toList 0) =
          initial 179 (St.mk "y \"q\"\n```\nb".toList 10 "a\n```\nx ` ".toList 0) :=
        initial_step_verbatim ' ' "y \"q\"\n```\nb".toList 9 "a\n```\nx `".toList 0 179 (by decide)
      have e5 :
          initial 179 (St.mk "y \"q\"\n```\nb".toList 10 "a\n```\nx ` ".toList 0) =
          initial 178 (St.mk " \"q\"\n```\nb".toList 11 "a\n```\nx ` y".toList 0) :=
        initial_step_verbatim 'y' " \"q\"\n```\nb".toList 10 "a\n```\nx ` ".toList 0 178 (by decide)
      have e6 :
          initial 178 (St.mk " \"q\"\n```\nb".toList 11 "a\n```\nx ` y".toList 0) =
          initial 177 (St.mk "\"q\"\n```\nb".toList 12 "a\n```\nx ` y ".toList 0) :=
        initial_step_verbatim ' ' "\"q\"\n```\nb".toList 11 "a\n```\nx ` y".toList 0 177 (by decide)
      have e7 :
          initial 177 (St.mk "\"q\"\n```\nb".toList 12 "a\n```\nx ` y ".toList 0) =
          initial 176 (St.mk "\n```\nb".toList 15 "a\n```\nx ` y “q”".toList 0) :=
        initial_dquote_step '\"' ['q'] '\"' "\n```\nb".toList 12 "a\n```\nx ` y ".toList 0 176 (Or.inl rfl) (Or.inl rfl) (by decide) (by decide)
      have e8 :
          initial 176 (St.mk "\n```\nb".toList 15 "a\n```\nx ` y “q”".toList 0) =
          initial 175 (St.mk "```\nb".toList 16 "a\n```\nx ` y “q”\n".toList 0) :=
        initial_step_verbatim '\n' "```\nb".toList 15 "a\n```\nx ` y “q”".toList 0 175 (by decide)
      have e9 :
          initial 175 (St.mk "```\nb".toList 16 "a\n```\nx ` y “q”\n".toList 0) =
          initial 174 (St.mk "`\nb".toList 18 "a\n```\nx ` y “q”\n``".toList 0) :=
        initial_backtick_span_step ([] : List Char) "`\nb".toList 16 "a\n```\nx ` y “q”\n".toList 0 174 (by decide) (by decide) (by decide)
      have e10 :
          initial 174 (St.mk "`\nb".toList 18 "a\n```\nx ` y “q”\n``".toList 0) =
          (St.mk ([] : List Char) 21 "a\n```\nx ` y “q”\n```\nb".toList 0, Err.eof) :=
        initial_backtick_span_eof_step "\nb".toList 18 "a\n```\nx ` y “q”\n``".toList 0 173 (by decide) (by decide)
      rw [e0, e1, e2, e3, e4, e5, e6, e7, e8, e9, e10]
    unfold Educate
    rw [h0]

/-- C6 (failing-input evaluation).  The backtick opening this fence is
preceded by a newline in the output and followed by two more backticks,
yet no triple-backtick fence is started: the guard calls the constantly
false `previousRuneMatchesAny`, the fence is consumed as single-backtick
code spans, and the `'c'` between the fence lines is curled to `‘c’`
instead of being copied through verbatim. -/
theorem educate_fence_branch_never_taken :
    Educate "t\n```\na ` b 'c'\n```\nd".toList =
      (utf8Len "t\n```\na ` b ‘c’\n```\nd".toList, "t\n```\na ` b ‘c’\n```\nd".toList, none) ∧
    "t\n```\na ` b ‘c’\n```\nd".toList ≠ "t\n```\na ` b 'c'\n```\nd".toList := by
  constructor
  case right => decide
  case left =>
    have h0 : runInitial "t\n```\na ` b 'c'\n```\nd".toList =
        (St.mk ([] : List Char) 21 "t\n```\na ` b ‘c’\n```\nd".toList 0, Err.eof) := by
      unfold runInitial
      rw [show defaultFuel "t\n```\na ` b 'c'\n```\nd".toList = 184 from by decide]
      have e0 :
          initial 184 (St.mk "t\n```\na ` b 'c'\n```\nd".toList 0 ([] : List Char) 0) =
          initial 183 (St.mk "\n```\na ` b 'c'\n```\nd".toList 1 "t".toList 0) :=
        initial_step_verbatim 't' "\n```\na ` b 'c'\n```\nd".toList 0 ([] : List Char) 0 183 (by decide)
      have e1 :
          initial 183 (St.mk "\n```\na ` b 'c'\n```\nd".toList 1 "t".toList 0) =
          initial 182 (St.mk "```\na ` b 'c'\n```\nd".toList 2 "t\n".toList 0) :=
        initial_step_verbatim '\n' "```\na ` b 'c'\n```\nd".toList 1 "t".toList 0 182 (by decide)
      have e2 :
          initial 182 (St.mk "```\na ` b 'c'\n```\nd".toList 2 "t\n".toList 0) =
          initial 181 (St.mk "`\na ` b 'c'\n```\nd".toList 4 "t\n``".toList 0) :=
        initial_backtick_span_step ([] : List Char) "`\na ` b 'c'\n```\nd".toList 2 "t\n".toList 0 181 (by decide) (by decide) (by decide)
      have e3 :
          initial 181 (St.mk "`\na ` b 'c'\n```\nd".toList 4 "t\n``".toList 0) =
          initial 180 (St.mk " b 'c'\n```\nd".toList 9 "t\n```\na `".toList 0) :=
        initial_backtick_span_step "\na ".toList " b 'c'\n```\nd".toList 4 "t\n``".toList 0 180 (by decide) (by decide) (by decide)
      have e4 :
          initial 180 (St.mk " b 'c'\n```\nd".toList 9 "t\n```\na `".toList 0) =
          initial 179 (St.mk "b 'c'\n```\nd".toList 10 "t\n```\na ` ".toList 0) :=
        initial_step_verbatim ' ' "b 'c'\n```\nd".toList 9 "t\n```\na `".toList 0 179 (by decide)
      have e5 :
          initial 179 (St.mk "b 'c'\n```\nd".toList 10 "t\n```\na ` ".toList 0) =
          initial 178 (St.mk " 'c'\n```\nd".toList 11 "t\n```\na ` b".toList 0) :=
        initial_step_verbatim 'b' " 'c'\n```\nd".toList 10 "t\n```\na ` ".toList 0 178 (by decide)
      have e6 :
          initial 178 (St.mk " 'c'\n```\nd".toList 11 "t\n```\na ` b".toList 0) =
          initial 177 (St.mk "'c'\n```\nd".toList 12 "t\n```\na ` b ".toList 0) :=
        initial_step_verbatim ' ' "'c'\n```\nd".toList 11 "t\n```\na ` b".toList 0 177 (by decide)
      have e7 :
          initial 177 (St.mk "'c'\n```\nd".toList 12 "t\n```\na ` b ".toList 0) =
          initial 176 (St.mk "\n```\nd".toList 15 "t\n```\na ` b ‘c’".toList 0) :=
        initial_squote_step apostrophe ['c'] apostrophe "\n```\nd".toList 12 "t\n```\na ` b ".toList 0 176 (Or.inl rfl) (Or.inl rfl) (by decide) (by decide) (by decide) (by decide)
      have e8 :
          initial 176 (St.mk "\n```\nd".toList 15 "t\n```\na ` b ‘c’".toList 0) =
          initial 175 (St.mk "```\nd".toList 16 "t\n```\na ` b ‘c’\n".toList 0) :=
        initial_step_verbatim '\n' "```\nd".toList 15 "t\n```\na ` b ‘c’".toList 0 175 (by decide)
      have e9 :
          initial 175 (St.mk "```\nd".toList 16 "t\n```\na ` b ‘c’\n".toList 0) =
          initial 174 (St.mk "`\nd".toList 18 "t\n```\na ` b ‘c’\n``".toList 0) :=
        initial_backtick_span_step ([] : List Char) "`\nd".toList 16 "t\n```\na ` b ‘c’\n".toList 0 174 (by decide) (by decide) (by decide)
      have e10 :
          initial 174 (St.mk "`\nd".toList 18 "t\n```\na ` b ‘c’\n``".toList 0) =
          (St.mk ([] : List Char) 21 "t\n```\na ` b ‘c’\n```\nd".toList 0, Err.eof) :=
        initial_backtick_span_eof_step "\nd".toList 18 "t\n```\na ` b ‘c’\n``".toList 0 173 (by decide) (by decide)
      rw [e0, e1, e2, e3, e4, e5, e6, e7, e8, e9, e10]
    unfold Educate
    rw [h0]


end QuoteEducator
